import Mathlib

/-!
# Update and release resolution of the HUB75 status panel firmware

A shallow embedding of the update engine of `lib/utils/utils.cpp` and of the emoji path
next to it:

* the signature gate of the `onProgress` handlers installed by `Panel::setOTA` and
  `Panel::setGHUpdate` (`strcmp` of the cookie read back from the freshly written
  partition against the compiled-in `panelPartition`) and the progress bar they draw,
* one iteration of the endless loop of `Panel::checkForUpdates`: the construction of
  `firmwareUrl` (stable alias or newest prerelease), the `HEAD` probe and the decision
  whether `httpUpdate.update` is called,
* `Panel::setOTA` and `Panel::setGHUpdate` as transformers of the preferences, the task
  handles and the set of live FreeRTOS tasks,
* `Panel::setEmoji` (the two UTF-8 loops, the construction of the key, the returned code)
  and the handlers of `GET` and `POST` on `/api/v1/emoji` and `/api/v1/text`.

Conventions.  A C / Arduino string is the list of its bytes (`List Nat`); an Arduino
`String` value is the list of the bytes before its terminator.  Raw `char` arrays such as
`PanelPartition::cookie` are lists that may contain zero bytes.  Everything the network
answers is an explicit input of the model.  Loops whose trip count is not the length of a
list take a `fuel` argument that bounds the number of iterations.  Logging statements and
drawing other than the progress bar are left out.
-/

namespace Panel

/-! ## Strings -/

/-- Bytes of an ASCII literal of the source. -/
def lit (s : String) : List Nat := s.data.map Char.toNat

/-- The libc function `strcmp` on two buffers: walk both while the bytes agree and are not
the terminator, return the difference of the first pair that stops the walk.  The end of a
list is read as the terminating zero byte. -/
def strcmp : List Nat → List Nat → Int
  | [], [] => 0
  | [], b :: _ => 0 - (b : Int)
  | a :: _, [] => (a : Int)
  | a :: as, b :: bs =>
    if a ≠ b then (a : Int) - (b : Int)
    else if a = 0 then 0
    else strcmp as bs

/-- Arduino `String::operator>`, which is `compareTo(rhs) > 0`, that is `strcmp` of the two
buffers being positive: the lexicographic order of the bytes, a proper initial segment
being the smaller string. -/
def strGt : List Nat → List Nat → Bool
  | [], _ => false
  | _ :: _, [] => true
  | a :: as, b :: bs => if a = b then strGt as bs else decide (b < a)

/-- The libc function `strstr` on string contents: offset of the first occurrence of
`needle` in `hay`; the empty needle is found at offset 0. -/
def strstr : List Nat → List Nat → Option Nat
  | [], needle => if needle.isEmpty then some 0 else none
  | h :: t, needle =>
    if needle.isPrefixOf (h :: t) then some 0
    else (strstr t needle).map (fun k => k + 1)

/-- Arduino `String::indexOf(const String &)`: `-1` when the receiver is empty
(`fromIndex >= len()` with `fromIndex = 0`) or `strstr` finds nothing, else the offset. -/
def indexOf (s s2 : List Nat) : Int :=
  if s.length = 0 then -1
  else
    match strstr s s2 with
    | none => -1
    | some k => (k : Int)

/-! ## config.h -/

/-- Default of the macro `FW_VERSION` (the build may override it). -/
def FW_VERSION : List Nat := lit "DEV"

/-- Default of the macro `REPO_URL` (the build may override it). -/
def REPO_URL : List Nat := lit "elliotmatson/esp32-hub75-status"

/-- The macro `MAGIC_COOKIE`. -/
def MAGIC_COOKIE : List Nat := lit "status_FW"

/-! ## The partition signature -/

/-- The struct `PanelPartition`: `char cookie[32]; char reserved[224]`. -/
structure PanelPartition where
  cookie : List Nat
  reserved : List Nat
deriving DecidableEq, Repr

/-- The memory a pointer to `cookie` walks through: the cookie, then `reserved`. -/
def PanelPartition.fromCookie (p : PanelPartition) : List Nat := p.cookie ++ p.reserved

/-- The constant `panelPartition = {MAGIC_COOKIE}`: the literal, then zero bytes up to the
32 bytes of `cookie`, and a zeroed `reserved`. -/
def panelPartition : PanelPartition :=
  ⟨MAGIC_COOKIE ++ List.replicate (32 - MAGIC_COOKIE.length) 0, List.replicate 224 0⟩

/-- Signature gate of the `httpUpdate.onProgress` handler installed by `setGHUpdate`
(utils.cpp 493-500).  `newPanelPartition` is what `esp_partition_read` returned from the
next update partition; the result is `true` exactly when `Update.abort()` is called. -/
def httpUpdateOnProgressAborts (signedFWOnly : Bool) (progress total : Nat)
    (newPanelPartition : PanelPartition) : Bool :=
  if signedFWOnly && progress == total then
    if strcmp newPanelPartition.fromCookie panelPartition.fromCookie ≠ 0 then true else false
  else false

/-! ## Release selection -/

/-- The fields of one element of the release array that `checkForUpdates` reads. -/
structure Release where
  name : List Nat
  prerelease : Bool
  published_at : List Nat
deriving DecidableEq, Repr

/-- Body of the selection loop (utils.cpp 680-685) at index `i`; the state is
`(newestPrereleaseIndex, newestPrereleaseDate)`. -/
def loopStep (i : Nat) (release : Release) (st : Int × List Nat) : Int × List Nat :=
  if release.prerelease && strGt release.published_at st.2 then
    ((i : Int), release.published_at)
  else st

/-- The loop `for (int i = ...; i < releases.size(); i++)` over the remaining elements. -/
def loopFrom : List Release → Nat → Int × List Nat → Int × List Nat
  | [], _, st => st
  | release :: rest, i, st => loopFrom rest (i + 1) (loopStep i release st)

/-- The selection loop from its initial state `newestPrereleaseIndex = -1`,
`newestPrereleaseDate = ""` (utils.cpp 676-686). -/
def selectionLoop (releases : List Release) : Int × List Nat :=
  loopFrom releases 0 (-1, [])

/-- The final `newestPrereleaseIndex`. -/
def newestPrereleaseIndex (releases : List Release) : Int := (selectionLoop releases).1

/-- The expression `releases[idx]["name"].as<String>()`.  ArduinoJson answers an index
outside the array with a null element; `nullName` is the string `as<String>()` makes of
a null value. -/
def nameAt (releases : List Release) (idx : Int) (nullName : List Nat) : List Nat :=
  if 0 ≤ idx then
    match releases[idx.toNat]? with
    | some release => release.name
    | none => nullName
  else nullName

/-! ## One cycle of `checkForUpdates` -/

/-- Network actions and branches of one cycle, in the order they happen. -/
inductive Event
  | get (url : List Nat)
  | head (url : List Nat)
  | notUpdating
  | update (url : List Nat)
deriving DecidableEq, Repr

/-- The local `boardFile`. -/
def boardFile : List Nat := lit "/esp32.bin"

/-- The local `jsonUrl`. -/
def jsonUrl (repoUrl : List Nat) : List Nat :=
  lit "https://api.github.com/repos/" ++ repoUrl ++ lit "/releases"

/-- Construction of `firmwareUrl` (utils.cpp 658-695), with the requests it makes.
`jsonBegin` is the result of `http.begin(client, jsonUrl)`, `releases` the deserialized
array. -/
def resolveFirmwareUrl (repoUrl : List Nat) (development jsonBegin : Bool)
    (releases : List Release) (nullName : List Nat) : List Nat × List Event :=
  if development then
    if jsonBegin then
      (lit "https://github.com/" ++ repoUrl ++ lit "/releases/download/"
          ++ nameAt releases (newestPrereleaseIndex releases) nullName ++ boardFile,
        [Event.get (jsonUrl repoUrl)])
    else ([], [])
  else
    (lit "https://github.com/" ++ repoUrl ++ lit "/releases/latest/download/" ++ boardFile, [])

/-- The probe and the update decision (utils.cpp 698-727).  `probeBegin` is the result of
`http.begin(client, firmwareUrl)`, `httpCode` that of `http.sendRequest("HEAD")`,
`location` that of `http.getLocation()`. -/
def probeAndUpdate (fwVersion firmwareUrl : List Nat) (probeBegin : Bool) (httpCode : Int)
    (location : List Nat) : List Event :=
  if probeBegin && (firmwareUrl != []) then
    if decide (httpCode < 300) || decide (httpCode > 400)
        || decide (indexOf location fwVersion > 0)
        || decide (indexOf firmwareUrl fwVersion > 0) then
      [Event.head firmwareUrl, Event.notUpdating]
    else
      [Event.head firmwareUrl, Event.update firmwareUrl]
  else []

/-- What the network answers during one cycle. -/
structure Net where
  jsonBegin : Bool
  releases : List Release
  nullName : List Nat
  probeBegin : Bool
  httpCode : Int
  location : List Nat

/-- One iteration of the loop of `Panel::checkForUpdates` (utils.cpp 654-727). -/
def checkForUpdatesCycle (fwVersion repoUrl : List Nat) (development : Bool) (net : Net) :
    List Event :=
  let resolved := resolveFirmwareUrl repoUrl development net.jsonBegin net.releases net.nullName
  resolved.2 ++ probeAndUpdate fwVersion resolved.1 net.probeBegin net.httpCode net.location

/-- The release list of the concrete scenario of the specification. -/
def scenarioReleases : List Release :=
  [⟨lit "v0.2.2", true, lit "2024-01-01T00:00:00Z"⟩,
   ⟨lit "v0.2.3", true, lit "2024-02-01T00:00:00Z"⟩,
   ⟨lit "v0.2.1", false, lit "2024-03-01T00:00:00Z"⟩]

/-- The stable firmware address as `checkForUpdates` builds it with the default repository. -/
def stableUrl : List Nat := (resolveFirmwareUrl REPO_URL false false [] []).1

/-- A 32-byte cookie that agrees with the expected one up to and including the
terminator and differs in the byte after it. -/
def forgedCookie : List Nat := MAGIC_COOKIE ++ [0, 1] ++ List.replicate 21 0

/-! ## The update coordinator: `setOTA` and `setGHUpdate` -/

/-- The struct `PanelPrefs` (utils.h). -/
structure PanelPrefs where
  brightness : Nat
  development : Bool
  ota : Bool
  github : Bool
  signedFWOnly : Bool
  latchBlanking : Nat
  use20MHz : Bool
deriving DecidableEq, Repr

/-- Names of the FreeRTOS tasks the firmware creates. -/
inductive TaskName
  | memoryPrinter
  | checkForOTA
  | checkForUpdates
deriving DecidableEq, Repr

/-- A live FreeRTOS task: its handle and its name. -/
structure Task where
  handle : Nat
  name : TaskName
deriving DecidableEq, Repr

/-- The part of the `Panel` object and of the platform that `setOTA` and `setGHUpdate`
touch.  `nvs` is the blob stored under the key "panelPrefs"; `arduinoOTAHandlers` and
`httpUpdateHandlers` tell whether the callbacks are installed; `arduinoOTARunning` is the
listener between `ArduinoOTA.begin()` and `ArduinoOTA.end()`; `tasks` are the live tasks.
A task handle is the address of the task control block; a handle member is `none` when
it is `NULL`. -/
structure PanelState where
  panelPrefs : PanelPrefs
  nvs : PanelPrefs
  arduinoOTAHandlers : Bool
  arduinoOTARunning : Bool
  httpUpdateHandlers : Bool
  tasks : List Task
  checkForUpdatesTask : Option Nat
  checkForOTATask : Option Nat
deriving DecidableEq, Repr

/-- The method `Panel::updatePrefs`: `prefs.putBytes("panelPrefs", &panelPrefs, ...)`. -/
def updatePrefs (s : PanelState) : PanelState :=
  ⟨s.panelPrefs, s.panelPrefs, s.arduinoOTAHandlers, s.arduinoOTARunning, s.httpUpdateHandlers,
    s.tasks, s.checkForUpdatesTask, s.checkForOTATask⟩

/-- The address the heap gives the next task control block: the lowest one that no live
task occupies.  The address of a deleted task is therefore used again. -/
def freeHandle (tasks : List Task) : Nat :=
  ((List.range (tasks.length + 1)).filter
    (fun h => !tasks.any (fun t => t.handle == h))).headD tasks.length

/-- The FreeRTOS call `xTaskCreate`, taken to succeed: a new task whose handle is the
address the heap gives it; the handle is returned for the caller to store. -/
def xTaskCreate (name : TaskName) (s : PanelState) : PanelState × Nat :=
  (⟨s.panelPrefs, s.nvs, s.arduinoOTAHandlers, s.arduinoOTARunning, s.httpUpdateHandlers,
    s.tasks ++ [⟨freeHandle s.tasks, name⟩], s.checkForUpdatesTask, s.checkForOTATask⟩,
    freeHandle s.tasks)

/-- The FreeRTOS call `vTaskDelete`: the task that occupies the address stops existing,
whichever task that is.  When no live task occupies it (a stale handle whose address was
not given out again) FreeRTOS leaves the call undefined; the model deletes nothing
then. -/
def vTaskDelete (handle : Nat) (s : PanelState) : PanelState :=
  ⟨s.panelPrefs, s.nvs, s.arduinoOTAHandlers, s.arduinoOTARunning, s.httpUpdateHandlers,
    s.tasks.filter (fun t => t.handle != handle), s.checkForUpdatesTask, s.checkForOTATask⟩

/-- The method `Panel::setOTA` (utils.cpp 380-458).  The member `checkForOTATask` keeps
its value after `vTaskDelete`. -/
def setOTA (ota : Bool) (s : PanelState) : PanelState :=
  let p := s.panelPrefs
  let s1 : PanelState :=
    updatePrefs ⟨⟨p.brightness, p.development, ota, p.github, p.signedFWOnly, p.latchBlanking,
      p.use20MHz⟩, s.nvs, s.arduinoOTAHandlers, s.arduinoOTARunning, s.httpUpdateHandlers,
      s.tasks, s.checkForUpdatesTask, s.checkForOTATask⟩
  if ota then
    let s2 : PanelState :=
      ⟨s1.panelPrefs, s1.nvs, true, true, s1.httpUpdateHandlers, s1.tasks,
        s1.checkForUpdatesTask, s1.checkForOTATask⟩
    let created := xTaskCreate TaskName.checkForOTA s2
    ⟨created.1.panelPrefs, created.1.nvs, created.1.arduinoOTAHandlers,
      created.1.arduinoOTARunning, created.1.httpUpdateHandlers, created.1.tasks,
      created.1.checkForUpdatesTask, some created.2⟩
  else
    let s2 : PanelState :=
      ⟨s1.panelPrefs, s1.nvs, s1.arduinoOTAHandlers, false, s1.httpUpdateHandlers, s1.tasks,
        s1.checkForUpdatesTask, s1.checkForOTATask⟩
    match s2.checkForOTATask with
    | some handle => vTaskDelete handle s2
    | none => s2

/-- The method `Panel::setGHUpdate` (utils.cpp 467-524).  The member `checkForUpdatesTask`
keeps its value after `vTaskDelete`. -/
def setGHUpdate (github : Bool) (s : PanelState) : PanelState :=
  let p := s.panelPrefs
  let s1 : PanelState :=
    updatePrefs ⟨⟨p.brightness, p.development, p.ota, github, p.signedFWOnly, p.latchBlanking,
      p.use20MHz⟩, s.nvs, s.arduinoOTAHandlers, s.arduinoOTARunning, s.httpUpdateHandlers,
      s.tasks, s.checkForUpdatesTask, s.checkForOTATask⟩
  if github then
    let s2 : PanelState :=
      ⟨s1.panelPrefs, s1.nvs, s1.arduinoOTAHandlers, s1.arduinoOTARunning, true, s1.tasks,
        s1.checkForUpdatesTask, s1.checkForOTATask⟩
    let created := xTaskCreate TaskName.checkForUpdates s2
    ⟨created.1.panelPrefs, created.1.nvs, created.1.arduinoOTAHandlers,
      created.1.arduinoOTARunning, created.1.httpUpdateHandlers, created.1.tasks,
      some created.2, created.1.checkForOTATask⟩
  else
    match s1.checkForUpdatesTask with
    | some handle => vTaskDelete handle s1
    | none => s1

/-- The default member initialisers of `PanelPrefs`. -/
def defaultPrefs : PanelPrefs := ⟨255, false, false, true, true, 1, false⟩

/-- The state before `initUpdates`: the global `panel` starts with null task handles and no
update task exists. -/
def initialState : PanelState :=
  ⟨defaultPrefs, defaultPrefs, false, false, false, [], none, none⟩

/-- The live instances of the poll loop, the tasks named "Check For Updates". -/
def pullTasks (s : PanelState) : List Task :=
  s.tasks.filter (fun t => t.name == TaskName.checkForUpdates)

/-- The live instances of the push loop, the tasks named "Check For OTA". -/
def pushTasks (s : PanelState) : List Task :=
  s.tasks.filter (fun t => t.name == TaskName.checkForOTA)

/-- A sequence of `setGHUpdate` calls, first call first. -/
def runGHUpdate (calls : List Bool) (s : PanelState) : PanelState :=
  calls.foldl (fun st github => setGHUpdate github st) s

/-- Signature gate of the `ArduinoOTA.onProgress` handler installed by `setOTA`
(utils.cpp 415-422); the result is `true` exactly when `Update.abort()` is called. -/
def arduinoOTAOnProgressAborts (signedFWOnly : Bool) (progress total : Nat)
    (newPanelPartition : PanelPartition) : Bool :=
  if signedFWOnly && progress == total then
    if strcmp newPanelPartition.fromCookie panelPartition.fromCookie ≠ 0 then true else false
  else false

/-! ## The progress bar -/

/-- A value of type `long` (32 bits): two's complement wrap-around. -/
def toLong (x : Int) : Int := (x + 2147483648) % 4294967296 - 2147483648

/-- The Arduino core function `map` (WMath.cpp):
`(x - in_min) * (out_max - out_min) / (in_max - in_min) + out_min` in `long` arithmetic,
`-1` when the input range is empty. -/
def map (x in_min in_max out_min out_max : Int) : Int :=
  let run := toLong (in_max - in_min)
  if run = 0 then -1
  else
    let rise := toLong (out_max - out_min)
    let delta := toLong (x - in_min)
    toLong ((toLong (delta * rise)).tdiv run + out_min)

/-- The Arduino macro `constrain(amt, low, high)`. -/
def constrain (amt low high : Int) : Int :=
  if amt < low then low else if amt > high then high else amt

/-- Calls made on the display by the progress bar. -/
inductive Draw
  | fastHLine (x y w : Int)
  | fastVLine (x y h : Int)
deriving DecidableEq, Repr

/-- The progress bar both `onProgress` handlers draw (utils.cpp 424-428 and 503-507);
`progress` and `total` are the `unsigned int` arguments of the handler. -/
def progressBar (progress total : Nat) : List Draw :=
  let i := map (toLong progress) 0 (toLong total) 0 256
  [Draw.fastHLine 0 0 (constrain i 0 63),
   Draw.fastVLine 63 0 (constrain (i - 64) 0 63),
   Draw.fastHLine (63 - constrain (i - 128) 0 63) 63 (constrain (i - 128) 0 63),
   Draw.fastVLine 0 (63 - constrain (i - 192) 0 63) (constrain (i - 192) 0 63)]

/-- A release list in which the two prerelease entries carry the same timestamp. -/
def tieReleases : List Release :=
  [⟨lit "v0.2.2", true, lit "2024-02-01T00:00:00Z"⟩,
   ⟨lit "v0.2.3", true, lit "2024-02-01T00:00:00Z"⟩,
   ⟨lit "v0.2.1", false, lit "2024-03-01T00:00:00Z"⟩]

/-! ## `setEmoji` and the emoji endpoint -/

/-- The code `ESP_OK` of esp_err.h. -/
def ESP_OK : Int := 0

/-- The code `ESP_ERR_INVALID_ARG` of esp_err.h. -/
def ESP_ERR_INVALID_ARG : Int := 0x102

/-- The code `ESP_ERR_INVALID_STATE` of esp_err.h. -/
def ESP_ERR_INVALID_STATE : Int := 0x103

/-- The code `ESP_ERR_NOT_FOUND` of esp_err.h. -/
def ESP_ERR_NOT_FOUND : Int := 0x105

/-- The constant `HTTP_CODE_OK` of HTTPClient.h. -/
def HTTP_CODE_OK : Int := 200

/-- The expression `(uint8_t)emoji[i]`: the byte at index `i` of the C string whose content
is `emoji`; the index `strlen(emoji)` holds the terminator, read as 0 like every index
after it. -/
def byteAt (emoji : List Nat) (i : Nat) : Nat := emoji.getD i 0

/-- The counting loop (utils.cpp 775-791) from index `i` with `codepointCount = count`;
`fuel` bounds the number of iterations, of which there are at most `len`.  The result is
the final `codepointCount`. -/
def countLoop (emoji : List Nat) (len : Nat) : Nat → Nat → Nat → Nat
  | 0, _, count => count
  | fuel + 1, i, count =>
    if i < len then
      if 0xC0 ≤ byteAt emoji i ∧ byteAt emoji i ≤ 0xDF then
        countLoop emoji len fuel (i + 1 + 1) (count + 1)
      else if 0xE0 ≤ byteAt emoji i ∧ byteAt emoji i ≤ 0xEF then
        countLoop emoji len fuel (i + 2 + 1) (count + 1)
      else if 0xF0 ≤ byteAt emoji i ∧ byteAt emoji i ≤ 0xF7 then
        countLoop emoji len fuel (i + 3 + 1) (count + 1)
      else
        countLoop emoji len fuel (i + 1) (count + 1)
    else count

/-- The decoding loop (utils.cpp 796-821) from index `i`; `codepoints` lists the slots
`0 .. codepointIndex - 1` passed so far, so `codepointIndex` is its length.  A slot the
loop passes without writing keeps what the stack held, shown as 0. -/
def decodeLoop (emoji : List Nat) (len : Nat) : Nat → Nat → List Nat → List Nat
  | 0, _, codepoints => codepoints
  | fuel + 1, i, codepoints =>
    if i < len then
      if 0xC0 ≤ byteAt emoji i ∧ byteAt emoji i ≤ 0xDF then
        decodeLoop emoji len fuel (i + 1 + 1)
          (codepoints ++ [((byteAt emoji i &&& 0x1F) <<< 6) ||| (byteAt emoji (i + 1) &&& 0x3F)])
      else if 0xE0 ≤ byteAt emoji i ∧ byteAt emoji i ≤ 0xEF then
        decodeLoop emoji len fuel (i + 2 + 1)
          (codepoints ++ [(((byteAt emoji i &&& 0x0F) <<< 12)
            ||| ((byteAt emoji (i + 1) &&& 0x3F) <<< 6)) ||| (byteAt emoji (i + 2) &&& 0x3F)])
      else if 0xF0 ≤ byteAt emoji i ∧ byteAt emoji i ≤ 0xF7 then
        decodeLoop emoji len fuel (i + 3 + 1)
          (codepoints ++ [((((byteAt emoji i &&& 0x07) <<< 18)
            ||| ((byteAt emoji (i + 1) &&& 0x3F) <<< 12))
            ||| ((byteAt emoji (i + 2) &&& 0x3F) <<< 6)) ||| (byteAt emoji (i + 3) &&& 0x3F)])
      else
        decodeLoop emoji len fuel (i + 1) (codepoints ++ [0])
    else codepoints

/-- The local `len`: `strlen(emoji)` stored in a `uint8_t`. -/
def emojiLen (emoji : List Nat) : Nat := emoji.length % 256

/-- The final `codepointCount` of `setEmoji`. -/
def codepointCount (emoji : List Nat) : Nat :=
  countLoop emoji (emojiLen emoji) (emojiLen emoji) 0 0

/-- The array `codepoints` of `setEmoji` after the decoding loop. -/
def codepoints (emoji : List Nat) : List Nat :=
  decodeLoop emoji (emojiLen emoji) (emojiLen emoji) 0 []

/-- Arduino `String(value, HEX)`: hexadecimal digits, lower case, no leading zeros. -/
def hexString (n : Nat) : List Nat := (Nat.toDigits 16 n).map Char.toNat

/-- The start of `codepointsString` (utils.cpp 830-843): the first codepoint and the two
tests on the second one.  The result is `(codepointsString, i)`. -/
def keyHead (cps : List Nat) (count : Nat) : List Nat × Nat :=
  let st0 : List Nat × Nat := (hexString (cps.getD 0 0), 1)
  let st1 : List Nat × Nat :=
    if count > 1 ∧ cps.getD 1 0 ≥ 0x1F3FB ∧ cps.getD 1 0 ≤ 0x1F3FF then
      (st0.1 ++ (lit "_" ++ hexString (cps.getD 1 0)), st0.2 + 1)
    else st0
  if count > 1 ∧ cps.getD 1 0 ≥ 0x1F1E6 ∧ cps.getD 1 0 ≤ 0x1F1FF then
    (st1.1 ++ (lit "_" ++ hexString (cps.getD 1 0)), st1.2 + 1)
  else st1

/-- The loop `while (i < codepointCount)` (utils.cpp 846-865) on the state
`(codepointsString, i)`; `fuel` bounds the number of iterations. -/
def keyLoop (cps : List Nat) (count : Nat) : Nat → List Nat × Nat → List Nat × Nat
  | 0, st => st
  | fuel + 1, st =>
    if st.2 < count then
      if cps.getD st.2 0 = 0x200D ∧ st.2 + 1 < count then
        keyLoop cps count fuel (st.1 ++ (lit "_200D_" ++ hexString (cps.getD (st.2 + 1) 0)), st.2 + 2)
      else if cps.getD st.2 0 ≥ 0x1F3FB ∧ cps.getD st.2 0 ≤ 0x1F3FF then
        keyLoop cps count fuel (st.1 ++ (lit "_" ++ hexString (cps.getD st.2 0)), st.2 + 1)
      else st
    else st

/-- The final `(codepointsString, i)` of `setEmoji` for the array `cps` holding `count`
codepoints. -/
def emojiKey (cps : List Nat) (count : Nat) : List Nat × Nat :=
  keyLoop cps count count (keyHead cps count)

/-- What the emoji server answers: the results of `https.begin(client, emojiUrl)`,
`https.GET()` and `https.getSize()`. -/
structure EmojiNet where
  beginOk : Bool
  res : Int
  size : Int

/-- The method `Panel::setEmoji` (utils.cpp 759-920): the returned `esp_err_t` and the
address handed to `https.begin`, if any. -/
def setEmoji (emoji : List Nat) (net : EmojiNet) : Int × Option (List Nat) :=
  if byteAt emoji 0 > 0x7F then
    let codepointsString := (emojiKey (codepoints emoji) (codepointCount emoji)).1
    let emojiUrl := lit "https://emojiapi.dev/api/v1/" ++ codepointsString ++ lit "/32.raw"
    if net.beginOk then
      if net.size > 0 ∧ net.res = HTTP_CODE_OK then (ESP_OK, some emojiUrl)
      else (ESP_ERR_NOT_FOUND, some emojiUrl)
    else (ESP_ERR_INVALID_STATE, some emojiUrl)
  else (ESP_ERR_INVALID_ARG, none)

/-- The handler of `POST /api/v1/emoji` (utils.cpp 317-336): status code and body sent.
`arg` is `none` when the request has no argument "emoji". -/
def postEmoji (arg : Option (List Nat)) (net : EmojiNet) : Nat × List Nat :=
  match arg with
  | some emoji =>
    if (setEmoji emoji net).1 ≠ 0 then
      (200, lit "\x7b\"emoji\":\"" ++ emoji ++ lit "\"")
    else
      (400, lit "\x7b\"error\": \"Invalid emoji\"\x7d")
  | none => (400, lit "\x7b\"error\": \"No emoji parameter\"\x7d")

/-! ### UTF-8, for comparison with the decoding loop -/

/-- A continuation byte `10xxxxxx`. -/
def isContinuation (b : Nat) : Bool := decide (0x80 ≤ b) && decide (b ≤ 0xBF)

/-- The form of a 2-, 3- or 4-byte UTF-8 sequence: a lead byte `110xxxxx`, `1110xxxx` or
`11110xxx` followed by one, two or three continuation bytes.  Every well-formed sequence
of these lengths has this form. -/
def isUtf8Seq : List Nat → Bool
  | [b0, b1] => decide (0xC0 ≤ b0) && decide (b0 ≤ 0xDF) && isContinuation b1
  | [b0, b1, b2] =>
    decide (0xE0 ≤ b0) && decide (b0 ≤ 0xEF) && isContinuation b1 && isContinuation b2
  | [b0, b1, b2, b3] =>
    decide (0xF0 ≤ b0) && decide (b0 ≤ 0xF7) && isContinuation b1 && isContinuation b2
      && isContinuation b3
  | _ => false

/-- The scalar value a sequence of that form encodes: the payload bits `x` of its bytes,
most significant first. -/
def utf8Value : List Nat → Nat
  | [b0, b1] => (b0 - 0xC0) * 64 + (b1 - 0x80)
  | [b0, b1, b2] => (b0 - 0xE0) * 4096 + (b1 - 0x80) * 64 + (b2 - 0x80)
  | [b0, b1, b2, b3] =>
    (b0 - 0xF0) * 262144 + (b1 - 0x80) * 4096 + (b2 - 0x80) * 64 + (b3 - 0x80)
  | _ => 0

/-- The UTF-8 encoding of a scalar value from U+0080 on. -/
def utf8Encode (c : Nat) : List Nat :=
  if c < 0x800 then [0xC0 + c / 64, 0x80 + c % 64]
  else if c < 0x10000 then [0xE0 + c / 4096, 0x80 + c / 64 % 64, 0x80 + c % 64]
  else [0xF0 + c / 262144, 0x80 + c / 4096 % 64, 0x80 + c / 64 % 64, 0x80 + c % 64]

/-! ### The stopping rules of the emoji key, for comparison with `keyLoop` -/

/-- A skin-tone modifier U+1F3FB..U+1F3FF. -/
def isSkinTone (c : Nat) : Bool := decide (0x1F3FB ≤ c) && decide (c ≤ 0x1F3FF)

/-- A regional indicator U+1F1E6..U+1F1FF. -/
def isRegionalIndicator (c : Nat) : Bool := decide (0x1F1E6 ≤ c) && decide (c ≤ 0x1F1FF)

/-- The codepoint at index `j` is a joiner followed by another codepoint, or a skin-tone
modifier. -/
def continuesAt (cps : List Nat) (j : Nat) : Bool :=
  (cps.getD j 0 == 0x200D && decide (j + 1 < cps.length)) || isSkinTone (cps.getD j 0)

/-- The index of the first codepoint from index `start` on that is neither a joiner
followed by another codepoint nor a skin-tone modifier; the length when there is none. -/
def scanStop (cps : List Nat) (start : Nat) : Nat :=
  ((List.range cps.length).filter (fun j => decide (start ≤ j) && !continuesAt cps j)).headD
    cps.length

/-- The walk from index `i`: a joiner followed by another codepoint consumes both, a
skin-tone modifier consumes itself, any other codepoint ends the walk. -/
def walkStop (cps : List Nat) : Nat → Nat → Nat
  | 0, i => i
  | fuel + 1, i =>
    if i < cps.length then
      if cps.getD i 0 = 0x200D ∧ i + 1 < cps.length then walkStop cps fuel (i + 2)
      else if isSkinTone (cps.getD i 0) = true then walkStop cps fuel (i + 1)
      else i
    else i

/-- Where the walk starts: after the codepoint at index 1 when that one is a skin-tone
modifier or a regional indicator, at index 1 otherwise. -/
def walkStart (cps : List Nat) : Nat :=
  if cps.length > 1 ∧ (isSkinTone (cps.getD 1 0) = true ∨ isRegionalIndicator (cps.getD 1 0) = true)
  then 2 else 1

/-- The indices at which the walk from index `i` finds a joiner followed by another
codepoint. -/
def walkJoiners (cps : List Nat) : Nat → Nat → List Nat
  | 0, _ => []
  | fuel + 1, i =>
    if i < cps.length then
      if cps.getD i 0 = 0x200D ∧ i + 1 < cps.length then i :: walkJoiners cps fuel (i + 2)
      else if isSkinTone (cps.getD i 0) = true then walkJoiners cps fuel (i + 1)
      else []
    else []

/-- The text that stands for the codepoint at index `j` in the key: the literal "200D" when
`j` is one of `joiners`, else the hexadecimal digits as `String(c, HEX)` gives them (lower
case). -/
def renderAt (cps : List Nat) (joiners : List Nat) (j : Nat) : List Nat :=
  if j ∈ joiners then lit "200D" else hexString (cps.getD j 0)

/-- The bytes of U+1F600, the grinning face. -/
def grinningFace : List Nat := [0xF0, 0x9F, 0x98, 0x80]

/-- Codepoints of "man, joiner, woman". -/
def manJoinerWoman : List Nat := [0x1F468, 0x200D, 0x1F469]

/-- Codepoints of the flag "US" followed by the grinning face. -/
def flagThenFace : List Nat := [0x1F1FA, 0x1F1F8, 0x1F600]

/-- Codepoints of "man, joiner, joiner". -/
def manJoinerJoiner : List Nat := [0x1F468, 0x200D, 0x200D]

/-- Codepoints of two faces followed by a skin-tone modifier. -/
def facesThenTone : List Nat := [0x1F600, 0x1F601, 0x1F3FB]

/-! ## The text and emoji endpoints -/

/-- The method `Panel::setText` (utils.cpp 922-933): it draws the text and returns
`ESP_OK`. -/
def setText (_text : List Nat) : Int := ESP_OK

/-- The expression `request->arg(name)`: the value of the argument, the empty string when
the request does not carry it. -/
def requestArg (arg : Option (List Nat)) : List Nat := arg.getD []

/-- The handler of `GET /api/v1/emoji` (utils.cpp 313-316): status code and body sent. -/
def getEmoji (arg : Option (List Nat)) : Nat × List Nat :=
  (200, lit "\x7b\"emoji\":\"" ++ requestArg arg ++ lit "\"\x7d")

/-- The handler of `GET /api/v1/text` (utils.cpp 340-343): status code and body sent. -/
def getText (arg : Option (List Nat)) : Nat × List Nat :=
  (200, lit "\x7b\"text\":\"" ++ requestArg arg ++ lit "\"\x7d")

/-- The handler of `POST /api/v1/text` (utils.cpp 344-357): status code and body sent.
`arg` is `none` when the request has no argument "text". -/
def postText (arg : Option (List Nat)) : Nat × List Nat :=
  match arg with
  | some text =>
    let _err := setText text
    (200, lit "\x7b\"text\":\"" ++ requestArg (some text) ++ lit "\"")
  | none => (400, lit "\x7b\"error\": \"No text parameter\"\x7d")

/-- Number of opening braces minus number of closing braces in a body. -/
def braceExcess (body : List Nat) : Int :=
  (body.count 0x7B : Int) - (body.count 0x7D : Int)

/-! ## Facts about `strcmp` -/

theorem strcmp_self (a : List Nat) : strcmp a a = 0 := by
  induction a with
  | nil => rfl
  | cons x xs ih => simp [strcmp, ih]

theorem strcmp_cons_cons_iff (a b : Nat) (as bs : List Nat) (hb : b ≠ 0) :
    strcmp (a :: as) (b :: bs) = 0 ↔ a = b ∧ strcmp as bs = 0 := by
  by_cases h : a = b
  · subst h
    simp [strcmp, hb]
  · have h2 : (a : Int) - (b : Int) ≠ 0 := by omega
    simp [strcmp, h, h2]

theorem strcmp_cons_zero_iff (a : Nat) (as bs : List Nat) :
    strcmp (a :: as) (0 :: bs) = 0 ↔ a = 0 := by
  by_cases h : a = 0
  · subst h
    simp [strcmp]
  · simp [strcmp, h]

/-- Against the compiled-in partition `strcmp` looks at ten bytes only: the nine of
`MAGIC_COOKIE` and the terminator. -/
theorem strcmp_panelPartition_iff (cookie reserved : List Nat) (hlen : cookie.length = 32) :
    strcmp (cookie ++ reserved) panelPartition.fromCookie = 0
      ↔ cookie.take 10 = MAGIC_COOKIE ++ [0] := by
  match cookie, hlen with
  | a0 :: a1 :: a2 :: a3 :: a4 :: a5 :: a6 :: a7 :: a8 :: a9 :: rest, _ =>
    have e : panelPartition.fromCookie
        = 115 :: 116 :: 97 :: 116 :: 117 :: 115 :: 95 :: 70 :: 87 :: 0
            :: (List.replicate 22 0 ++ List.replicate 224 0) := by rfl
    have m : MAGIC_COOKIE ++ [0] = [115, 116, 97, 116, 117, 115, 95, 70, 87, 0] := by rfl
    rw [e, m]
    simp only [List.cons_append]
    rw [strcmp_cons_cons_iff _ _ _ _ (by decide), strcmp_cons_cons_iff _ _ _ _ (by decide),
      strcmp_cons_cons_iff _ _ _ _ (by decide), strcmp_cons_cons_iff _ _ _ _ (by decide),
      strcmp_cons_cons_iff _ _ _ _ (by decide), strcmp_cons_cons_iff _ _ _ _ (by decide),
      strcmp_cons_cons_iff _ _ _ _ (by decide), strcmp_cons_cons_iff _ _ _ _ (by decide),
      strcmp_cons_cons_iff _ _ _ _ (by decide), strcmp_cons_zero_iff]
    simp only [List.take_succ_cons, List.take_zero, List.cons.injEq, and_true]

/-- A candidate whose cookie is the compiled-in one compares equal, whatever follows it. -/
theorem strcmp_same_cookie (reserved : List Nat) :
    strcmp (PanelPartition.fromCookie ⟨panelPartition.cookie, reserved⟩)
      panelPartition.fromCookie = 0 := by
  rfl

/-! ## Facts about `indexOf` and the probe -/

theorem strstr_some_occurs (hay needle : List Nat) (k : Nat) (h : strstr hay needle = some k) :
    ∃ pre post, hay = pre ++ needle ++ post ∧ pre.length = k := by
  induction hay generalizing k with
  | nil =>
    unfold strstr at h
    split_ifs at h with hn
    have hk : 0 = k := by simpa using h
    have hnil : needle = [] := by simpa using hn
    exact ⟨[], [], by simp [hnil], hk⟩
  | cons x t ih =>
    unfold strstr at h
    split_ifs at h with hp
    · have hk : 0 = k := by simpa using h
      obtain ⟨post, hpost⟩ := List.isPrefixOf_iff_prefix.mp hp
      exact ⟨[], post, by simp [hpost], hk⟩
    · cases hs : strstr t needle with
      | none => simp [hs] at h
      | some j =>
        have hk : j + 1 = k := by simpa [hs] using h
        obtain ⟨pre, post, e, hl⟩ := ih j hs
        exact ⟨x :: pre, post, by simp [e], by simp [hl, hk]⟩

/-- A positive `indexOf` means the argument occurs in the receiver. -/
theorem indexOf_pos_occurs (s s2 : List Nat) (h : 0 < indexOf s s2) : s2 <:+: s := by
  unfold indexOf at h
  split_ifs at h with h0
  · omega
  · cases hs : strstr s s2 with
    | none => simp [hs] at h
    | some k =>
      obtain ⟨pre, post, e, _⟩ := strstr_some_occurs s s2 k hs
      exact ⟨pre, post, e.symm⟩

/-- When `httpUpdate.update` is called in a cycle. -/
theorem probeAndUpdate_update_iff (fwVersion firmwareUrl : List Nat) (probeBegin : Bool)
    (httpCode : Int) (location : List Nat) :
    Event.update firmwareUrl ∈ probeAndUpdate fwVersion firmwareUrl probeBegin httpCode location
      ↔ probeBegin = true ∧ firmwareUrl ≠ [] ∧ 300 ≤ httpCode ∧ httpCode ≤ 400
          ∧ indexOf location fwVersion ≤ 0 ∧ indexOf firmwareUrl fwVersion ≤ 0 := by
  unfold probeAndUpdate
  split_ifs with h1 h2
  · simp only [Bool.or_eq_true, decide_eq_true_eq] at h2
    simp only [List.mem_cons, List.mem_singleton, reduceCtorEq, or_self, List.not_mem_nil,
      false_iff]
    omega
  · simp only [Bool.or_eq_true, decide_eq_true_eq, not_or, not_lt] at h2
    simp only [Bool.and_eq_true, bne_iff_ne, ne_eq] at h1
    simp only [List.mem_cons, reduceCtorEq, List.mem_singleton, true_or, or_true, false_or,
      List.not_mem_nil, or_false, true_iff]
    exact ⟨h1.1, h1.2, h2.1.1.1, h2.1.1.2, h2.1.2, h2.2⟩
  · simp only [Bool.and_eq_true, bne_iff_ne, ne_eq, not_and, not_not] at h1
    simp only [List.not_mem_nil, false_iff]
    intro h
    exact h.2.1 (h1 h.1)


/-! ## The order `strGt` -/

theorem strGt_irrefl (a : List Nat) : strGt a a = false := by
  induction a with
  | nil => rfl
  | cons x xs ih => simp [strGt, ih]

theorem strGt_nil_left (a : List Nat) : strGt [] a = false := by
  cases a <;> rfl

theorem strGt_nil_right (a : List Nat) : strGt a [] = true ↔ a ≠ [] := by
  cases a <;> simp [strGt]

theorem strGt_trans : ∀ (a b c : List Nat), strGt a b = true → strGt b c = true →
    strGt a c = true
  | [], _, _, h, _ => by simp [strGt] at h
  | _ :: _, [], _, _, h => by simp [strGt] at h
  | _ :: _, _ :: _, [], _, _ => by simp [strGt]
  | x :: xs, y :: ys, z :: zs, h1, h2 => by
    simp only [strGt] at h1 h2 ⊢
    by_cases hxy : x = y
    · by_cases hyz : y = z
      · simp only [hxy, hyz, if_true] at h1 h2 ⊢
        exact strGt_trans xs ys zs h1 h2
      · subst hxy
        simp only [hyz, if_false] at h2 ⊢
        exact h2
    · by_cases hyz : y = z
      · subst hyz
        simp only [hxy, if_false] at h1 ⊢
        exact h1
      · simp only [hxy, hyz, if_false, decide_eq_true_eq] at h1 h2
        have hxz : x ≠ z := by omega
        simp only [hxz, if_false, decide_eq_true_eq]
        omega

theorem strGt_total : ∀ (a b : List Nat), strGt a b = false → strGt b a = false → a = b
  | [], [], _, _ => rfl
  | [], _ :: _, _, h => by simp [strGt] at h
  | _ :: _, [], h, _ => by simp [strGt] at h
  | x :: xs, y :: ys, h1, h2 => by
    simp only [strGt] at h1 h2
    by_cases hxy : x = y
    · subst hxy
      simp only [if_true] at h1 h2
      rw [strGt_total xs ys h1 h2]
    · have hyx : ¬ y = x := fun e => hxy e.symm
      simp only [hxy, hyx, if_false, decide_eq_false_iff_not] at h1 h2
      omega

theorem strGt_asymm (a b : List Nat) (h : strGt a b = true) : strGt b a = false := by
  cases hb : strGt b a with
  | false => rfl
  | true =>
    have := strGt_trans a b a h hb
    rw [strGt_irrefl] at this
    exact absurd this (by decide)

/-- From `x ≤ d` and `d < n` to `x < n`. -/
theorem strGt_of_le_of_gt (x d n : List Nat) (hxd : strGt x d = false)
    (hnd : strGt n d = true) : strGt n x = true := by
  cases hnx : strGt n x with
  | true => rfl
  | false =>
    cases hxn : strGt x n with
    | true =>
      have := strGt_trans x n d hxn hnd
      rw [hxd] at this
      exact absurd this (by decide)
    | false =>
      have e := strGt_total n x hnx hxn
      subst e
      rw [hxd] at hnd
      exact absurd hnd (by decide)

/-! ## The selection loop -/

theorem loopFrom_append (l : List Release) (r : Release) (i : Nat) (st : Int × List Nat) :
    loopFrom (l ++ [r]) i st = loopStep (i + l.length) r (loopFrom l i st) := by
  induction l generalizing i st with
  | nil => simp [loopFrom]
  | cons x xs ih =>
    show loopFrom (xs ++ [r]) (i + 1) (loopStep i x st)
      = loopStep (i + (xs.length + 1)) r (loopFrom xs (i + 1) (loopStep i x st))
    rw [ih, show i + 1 + xs.length = i + (xs.length + 1) by omega]

theorem selectionLoop_append (l : List Release) (r : Release) :
    selectionLoop (l ++ [r]) = loopStep l.length r (selectionLoop l) := by
  unfold selectionLoop
  rw [loopFrom_append]
  simp

theorem getElem?_snoc_cases (l : List Release) (r r0 : Release) (j : Nat)
    (h : (l ++ [r])[j]? = some r0) :
    (j < l.length ∧ l[j]? = some r0) ∨ (j = l.length ∧ r0 = r) := by
  rw [List.getElem?_append] at h
  split_ifs at h with hj
  · exact Or.inl ⟨hj, h⟩
  · right
    have hj2 : j - l.length = 0 := by
      by_contra hne
      have : ([r] : List Release)[j - l.length]? = none := by
        apply List.getElem?_eq_none
        simp
        omega
      rw [this] at h
      exact absurd h (by simp)
    rw [hj2] at h
    simp at h
    exact ⟨by omega, h.symm⟩

/-- What the selection loop computes: either nothing was selected and every prerelease entry
has an empty `published_at`, or the state names the first prerelease entry whose
`published_at` no other prerelease entry exceeds. -/
theorem selectionLoop_spec (l : List Release) :
    (selectionLoop l = (-1, []) ∧ ∀ r ∈ l, r.prerelease = true → r.published_at = []) ∨
    (∃ (i : Nat) (r : Release), selectionLoop l = ((i : Int), r.published_at) ∧ l[i]? = some r
      ∧ r.prerelease = true ∧ r.published_at ≠ []
      ∧ (∀ (j : Nat) (r0 : Release), l[j]? = some r0 → r0.prerelease = true →
          strGt r0.published_at r.published_at = false)
      ∧ (∀ (j : Nat) (r0 : Release), l[j]? = some r0 → r0.prerelease = true → j < i →
          strGt r.published_at r0.published_at = true)) := by
  induction l using List.reverseRecOn with
  | nil => left; exact ⟨rfl, by simp⟩
  | append_singleton l r ih =>
    rw [selectionLoop_append]
    rcases ih with ⟨hst, hall⟩ | ⟨i, r1, hst, hget, hpre, hne, hmax, hfirst⟩
    · rw [hst]
      unfold loopStep
      by_cases hc : (r.prerelease && strGt r.published_at []) = true
      · rw [if_pos hc]
        simp only [Bool.and_eq_true] at hc
        right
        refine ⟨l.length, r, rfl, by simp, hc.1, (strGt_nil_right _).mp hc.2, ?_, ?_⟩
        · intro j r0 hj hp
          rcases getElem?_snoc_cases l r r0 j hj with ⟨_, hj2⟩ | ⟨_, e⟩
          · rw [hall r0 (List.getElem?_mem hj2) hp]
            exact strGt_nil_left _
          · rw [e]; exact strGt_irrefl _
        · intro j r0 hj hp hlt
          rcases getElem?_snoc_cases l r r0 j hj with ⟨_, hj2⟩ | ⟨e, _⟩
          · rw [hall r0 (List.getElem?_mem hj2) hp]
            exact hc.2
          · omega
      · rw [if_neg hc]
        left
        refine ⟨rfl, ?_⟩
        intro r0 hmem hp
        rcases List.mem_append.mp hmem with h | h
        · exact hall r0 h hp
        · have e : r0 = r := by simpa using h
          subst e
          by_contra hne
          apply hc
          simp [hp, (strGt_nil_right _).mpr hne]
    · rw [hst]
      unfold loopStep
      have hi : i < l.length := by
        by_contra hge
        rw [List.getElem?_eq_none (by omega)] at hget
        exact absurd hget (by simp)
      by_cases hc : (r.prerelease && strGt r.published_at r1.published_at) = true
      · rw [if_pos hc]
        simp only [Bool.and_eq_true] at hc
        right
        refine ⟨l.length, r, rfl, by simp, hc.1, ?_, ?_, ?_⟩
        · intro e
          rw [e, strGt_nil_left] at hc
          exact absurd hc.2 (by decide)
        · intro j r0 hj hp
          rcases getElem?_snoc_cases l r r0 j hj with ⟨_, hj2⟩ | ⟨_, e⟩
          · exact strGt_asymm _ _ (strGt_of_le_of_gt _ _ _ (hmax j r0 hj2 hp) hc.2)
          · rw [e]; exact strGt_irrefl _
        · intro j r0 hj hp hlt
          rcases getElem?_snoc_cases l r r0 j hj with ⟨_, hj2⟩ | ⟨e, _⟩
          · exact strGt_of_le_of_gt _ _ _ (hmax j r0 hj2 hp) hc.2
          · omega
      · rw [if_neg hc]
        right
        refine ⟨i, r1, rfl, ?_, hpre, hne, ?_, ?_⟩
        · rw [List.getElem?_append_left hi]; exact hget
        · intro j r0 hj hp
          rcases getElem?_snoc_cases l r r0 j hj with ⟨_, hj2⟩ | ⟨_, e⟩
          · exact hmax j r0 hj2 hp
          · subst e
            cases hg : strGt r0.published_at r1.published_at with
            | false => rfl
            | true => exact absurd (by simp [hp, hg]) hc
        · intro j r0 hj hp hlt
          rcases getElem?_snoc_cases l r r0 j hj with ⟨_, hj2⟩ | ⟨e, _⟩
          · exact hfirst j r0 hj2 hp hlt
          · omega

/-- On strings without a zero byte `strGt` is `strcmp` being positive. -/
theorem strGt_iff_strcmp_pos : ∀ (a c : List Nat), (∀ b ∈ a, b ≠ 0) → (∀ b ∈ c, b ≠ 0) →
    (strGt a c = true ↔ 0 < strcmp a c)
  | [], [], _, _ => by simp [strGt, strcmp]
  | [], y :: ys, _, _ => by
    simp only [strGt, strcmp]
    constructor
    · intro h; exact absurd h (by decide)
    · intro h; omega
  | x :: xs, [], ha, _ => by
    have hx : x ≠ 0 := ha x (by simp)
    simp only [strGt, strcmp, true_iff]
    omega
  | x :: xs, y :: ys, ha, hc => by
    have hx : x ≠ 0 := ha x (by simp)
    by_cases hxy : x = y
    · subst hxy
      simp only [strGt, strcmp, if_true, ne_eq, not_true_eq_false, if_false, hx]
      exact strGt_iff_strcmp_pos xs ys (fun b hb => ha b (by simp [hb]))
        (fun b hb => hc b (by simp [hb]))
    · simp only [strGt, strcmp, hxy, if_false, ne_eq, not_false_eq_true, if_true,
        decide_eq_true_eq]
      omega

/-- With no prerelease entry the loop leaves the index at `-1`, and the address is built
from the name of the element at that index. -/
theorem resolve_without_prerelease (repoUrl : List Nat) (releases : List Release)
    (nullName : List Nat) (hnone : ∀ r ∈ releases, r.prerelease = false) :
    newestPrereleaseIndex releases = -1
      ∧ (resolveFirmwareUrl repoUrl true true releases nullName).1
          = lit "https://github.com/" ++ repoUrl ++ lit "/releases/download/" ++ nullName
              ++ boardFile := by
  have hidx : newestPrereleaseIndex releases = -1 := by
    unfold newestPrereleaseIndex
    rcases selectionLoop_spec releases with ⟨hst, _⟩ | ⟨i, r, _, hget, hpre, _⟩
    · rw [hst]
    · rw [hnone r (List.getElem?_mem hget)] at hpre
      exact absurd hpre (by decide)
  refine ⟨hidx, ?_⟩
  simp [resolveFirmwareUrl, hidx, nameAt]

/-- The name the selection hands to the address does not depend on the order of a release
list with pairwise distinct `published_at`. -/
theorem selected_name_perm (l1 l2 : List Release) (nullName : List Nat) (hperm : l1.Perm l2)
    (hdistinct : (l1.map Release.published_at).Nodup) :
    nameAt l1 (newestPrereleaseIndex l1) nullName
      = nameAt l2 (newestPrereleaseIndex l2) nullName := by
  unfold newestPrereleaseIndex
  rcases selectionLoop_spec l1 with ⟨h1, hall1⟩ | ⟨i1, r1, h1, hget1, hpre1, hne1, hmax1, _⟩
  · rcases selectionLoop_spec l2 with ⟨h2, _⟩ | ⟨i2, r2, h2, hget2, hpre2, hne2, _, _⟩
    · rw [h1, h2]
      simp [nameAt]
    · exact absurd (hall1 r2 (hperm.mem_iff.mpr (List.getElem?_mem hget2)) hpre2) hne2
  · rcases selectionLoop_spec l2 with ⟨h2, hall2⟩ | ⟨i2, r2, h2, hget2, hpre2, hne2, hmax2, _⟩
    · exact absurd (hall2 r1 (hperm.mem_iff.mp (List.getElem?_mem hget1)) hpre1) hne1
    · have hm1 : r1 ∈ l1 := List.getElem?_mem hget1
      have hm2 : r2 ∈ l1 := hperm.mem_iff.mpr (List.getElem?_mem hget2)
      obtain ⟨j2, hj2⟩ := List.mem_iff_getElem?.mp hm2
      obtain ⟨j1, hj1⟩ := List.mem_iff_getElem?.mp (hperm.mem_iff.mp hm1)
      have e : r1.published_at = r2.published_at :=
        strGt_total _ _ (hmax2 j1 r1 hj1 hpre1) (hmax1 j2 r2 hj2 hpre2)
      have er : r1 = r2 := List.inj_on_of_nodup_map hdistinct hm1 hm2 e
      rw [h1, h2]
      simp [nameAt, hget1, hget2, er]


/-! ## The claims -/

/-- C1 (code defect): the no-op guard tests `indexOf(...) > 0`, so a redirect location that
starts with the running version is not recognised: with `FW_VERSION` = "DEV", the stable
address, probe status 302 and location "DEV/esp32.bin" (which contains the version at
offset 0) the cycle calls `httpUpdate.update`. -/
theorem C1_version_at_offset_zero_is_updated :
    FW_VERSION <:+: lit "DEV/esp32.bin"
      ∧ indexOf (lit "DEV/esp32.bin") FW_VERSION = 0
      ∧ checkForUpdatesCycle FW_VERSION REPO_URL false
          ⟨false, [], [], true, 302, lit "DEV/esp32.bin"⟩
          = [Event.head stableUrl, Event.update stableUrl] :=
  ⟨⟨[], lit "/esp32.bin", by decide⟩, by decide, by decide⟩

/-- C2 (counterexample): a 32-byte cookie that differs from the expected one in the byte
after the terminator is not rejected: the handler does not call `Update.abort()`. -/
theorem C2_forged_cookie_not_aborted :
    forgedCookie.length = 32 ∧ panelPartition.cookie.length = 32
      ∧ forgedCookie ≠ panelPartition.cookie
      ∧ httpUpdateOnProgressAborts true 100 100 ⟨forgedCookie, List.replicate 224 0⟩
          = false := by
  decide

/-- C2 (amended): with `signedFWOnly` set and the write complete (`progress == total`), the
handler calls `Update.abort()` exactly for the 32-byte candidate cookies whose first ten
bytes differ from "status_FW" followed by its terminating zero byte. -/
theorem C2_signature_gate_rejects (progress : Nat) (newPanelPartition : PanelPartition)
    (hlen : newPanelPartition.cookie.length = 32) :
    httpUpdateOnProgressAborts true progress progress newPanelPartition = true
      ↔ newPanelPartition.cookie.take 10 ≠ MAGIC_COOKIE ++ [0] := by
  have key := strcmp_panelPartition_iff newPanelPartition.cookie newPanelPartition.reserved hlen
  unfold httpUpdateOnProgressAborts
  rw [show newPanelPartition.fromCookie
    = newPanelPartition.cookie ++ newPanelPartition.reserved from rfl]
  rw [show (List.take 10 newPanelPartition.cookie ≠ MAGIC_COOKIE ++ [0])
    ↔ ¬ strcmp (newPanelPartition.cookie ++ newPanelPartition.reserved)
        panelPartition.fromCookie = 0 from not_congr key.symm]
  simp

/-- Witness of C2 (amended): a 32-byte cookie starting "status_FX" is rejected. -/
theorem C2_signature_gate_rejects_witness :
    (lit "status_FX" ++ List.replicate 23 0).length = 32
      ∧ (lit "status_FX" ++ List.replicate 23 0).take 10 ≠ MAGIC_COOKIE ++ [0]
      ∧ httpUpdateOnProgressAborts true 7 7
          ⟨lit "status_FX" ++ List.replicate 23 0, List.replicate 224 0⟩ = true :=
  ⟨by decide, by decide,
    (C2_signature_gate_rejects 7
      ⟨lit "status_FX" ++ List.replicate 23 0, List.replicate 224 0⟩ (by decide)).mpr
      (by decide)⟩

/-- C3: when the cookie read from the new partition is byte-identical to the compiled-in
one, the handler never calls `Update.abort()`, whatever `signedFWOnly`, `progress`, `total`
and the reserved bytes are. -/
theorem C3_signature_gate_accepts (signedFWOnly : Bool) (progress total : Nat)
    (reserved : List Nat) :
    httpUpdateOnProgressAborts signedFWOnly progress total ⟨panelPartition.cookie, reserved⟩
      = false := by
  unfold httpUpdateOnProgressAborts
  rw [strcmp_same_cookie]
  simp

/-- C4 (counterexample): a release list with one prerelease entry whose `published_at` is the
empty string has pairwise distinct timestamps and a prerelease entry, yet the loop ends
with `newestPrereleaseIndex = -1`, pointing at no entry. -/
theorem C4_empty_timestamp_not_selected :
    (([⟨lit "v0.2.3", true, []⟩] : List Release).map Release.published_at).Nodup
      ∧ (∃ r ∈ ([⟨lit "v0.2.3", true, []⟩] : List Release), r.prerelease = true)
      ∧ newestPrereleaseIndex [⟨lit "v0.2.3", true, []⟩] = -1 := by
  refine ⟨by decide, ⟨⟨lit "v0.2.3", true, []⟩, by simp, rfl⟩, by decide⟩

/-- C4 (amended): for every release list with pairwise distinct `published_at` strings that
contains a prerelease entry with a non-empty `published_at`, the loop ends with
`newestPrereleaseIndex` at a prerelease entry whose `published_at` is greater than that of
every other prerelease entry. -/
theorem C4_prerelease_argmax (releases : List Release)
    (hdistinct : (releases.map Release.published_at).Nodup)
    (hpre : ∃ r ∈ releases, r.prerelease = true ∧ r.published_at ≠ []) :
    ∃ (i : Nat) (r : Release), newestPrereleaseIndex releases = (i : Int)
      ∧ releases[i]? = some r ∧ r.prerelease = true
      ∧ ∀ (j : Nat) (r0 : Release), releases[j]? = some r0 → r0.prerelease = true → j ≠ i →
          strGt r.published_at r0.published_at = true := by
  rcases selectionLoop_spec releases with ⟨_, hall⟩ | ⟨i, r, hst, hget, hp, _, hmax, _⟩
  · obtain ⟨r, hm, hp, hne⟩ := hpre
    exact absurd (hall r hm hp) hne
  · refine ⟨i, r, by simp [newestPrereleaseIndex, hst], hget, hp, ?_⟩
    intro j r0 hj hp0 hji
    cases hg : strGt r.published_at r0.published_at with
    | true => rfl
    | false =>
      exfalso
      have e : r0.published_at = r.published_at := strGt_total _ _ (hmax j r0 hj hp0) hg
      have er : r0 = r :=
        List.inj_on_of_nodup_map hdistinct (List.getElem?_mem hj) (List.getElem?_mem hget) e
      subst er
      have hnd : releases.Nodup := List.Nodup.of_map _ hdistinct
      have hjl : j < releases.length := by
        by_contra hge
        rw [List.getElem?_eq_none (by omega)] at hj
        exact absurd hj (by simp)
      have hil : i < releases.length := by
        by_contra hge
        rw [List.getElem?_eq_none (by omega)] at hget
        exact absurd hget (by simp)
      rw [List.getElem?_eq_getElem hjl] at hj
      rw [List.getElem?_eq_getElem hil] at hget
      have hh : releases[j] = releases[i] := by
        rw [Option.some.injEq] at hj hget
        rw [hj, hget]
      exact hji ((List.Nodup.getElem_inj_iff hnd).mp hh)

/-- Witness of C4 (amended): the scenario list, whose loop ends at index 1 on `v0.2.3`. -/
theorem C4_prerelease_argmax_witness :
    (scenarioReleases.map Release.published_at).Nodup
      ∧ (∃ r ∈ scenarioReleases, r.prerelease = true ∧ r.published_at ≠ [])
      ∧ ∃ (i : Nat) (r : Release), newestPrereleaseIndex scenarioReleases = (i : Int)
          ∧ scenarioReleases[i]? = some r ∧ r.prerelease = true
          ∧ ∀ (j : Nat) (r0 : Release), scenarioReleases[j]? = some r0 →
              r0.prerelease = true → j ≠ i → strGt r.published_at r0.published_at = true :=
  ⟨by decide, ⟨⟨lit "v0.2.2", true, lit "2024-01-01T00:00:00Z"⟩, by decide, by decide⟩,
    C4_prerelease_argmax scenarioReleases (by decide)
      ⟨⟨lit "v0.2.2", true, lit "2024-01-01T00:00:00Z"⟩, by decide, by decide⟩⟩

/-- C5 (code defect): on the development channel a release list without any prerelease
entry still yields a firmware address, built from the name of the element at index `-1`;
the cycle sends the `HEAD` probe to it and, on status 302, calls `httpUpdate.update`. -/
theorem C5_no_prerelease_still_probes :
    (∀ r ∈ ([⟨lit "v0.2.1", false, lit "2024-03-01T00:00:00Z"⟩] : List Release),
        r.prerelease = false)
      ∧ newestPrereleaseIndex [⟨lit "v0.2.1", false, lit "2024-03-01T00:00:00Z"⟩] = -1
      ∧ checkForUpdatesCycle FW_VERSION REPO_URL true
          ⟨true, [⟨lit "v0.2.1", false, lit "2024-03-01T00:00:00Z"⟩], lit "null", true, 302, []⟩
        = [Event.get (lit "https://api.github.com/repos/elliotmatson/esp32-hub75-status/releases"),
           Event.head (lit
             "https://github.com/elliotmatson/esp32-hub75-status/releases/download/null/esp32.bin"),
           Event.update (lit
             "https://github.com/elliotmatson/esp32-hub75-status/releases/download/null/esp32.bin")]
      ∧ checkForUpdatesCycle FW_VERSION REPO_URL true ⟨true, [], lit "null", true, 302, []⟩
        = [Event.get (lit "https://api.github.com/repos/elliotmatson/esp32-hub75-status/releases"),
           Event.head (lit
             "https://github.com/elliotmatson/esp32-hub75-status/releases/download/null/esp32.bin"),
           Event.update (lit
             "https://github.com/elliotmatson/esp32-hub75-status/releases/download/null/esp32.bin")] := by
  refine ⟨by simp, by decide, by decide, by decide⟩

/-- C6: for every release list with pairwise distinct `published_at` values and every
permutation of it, the selection loop hands the same release name to the address, and the
firmware address built on the development channel is the same. -/
theorem C6_selection_order_independent (repoUrl nullName : List Nat) (jsonBegin : Bool)
    (l1 l2 : List Release) (hperm : l1.Perm l2)
    (hdistinct : (l1.map Release.published_at).Nodup) :
    nameAt l1 (newestPrereleaseIndex l1) nullName
        = nameAt l2 (newestPrereleaseIndex l2) nullName
      ∧ (resolveFirmwareUrl repoUrl true jsonBegin l1 nullName).1
        = (resolveFirmwareUrl repoUrl true jsonBegin l2 nullName).1 := by
  have h := selected_name_perm l1 l2 nullName hperm hdistinct
  refine ⟨h, ?_⟩
  unfold resolveFirmwareUrl
  cases jsonBegin <;> simp [h]

/-- Witness of C6: the scenario list and its reversal select the same name `v0.2.3`. -/
theorem C6_selection_order_independent_witness :
    scenarioReleases.Perm scenarioReleases.reverse
      ∧ (scenarioReleases.map Release.published_at).Nodup
      ∧ nameAt scenarioReleases (newestPrereleaseIndex scenarioReleases) (lit "null")
        = nameAt scenarioReleases.reverse (newestPrereleaseIndex scenarioReleases.reverse)
            (lit "null")
      ∧ (resolveFirmwareUrl REPO_URL true true scenarioReleases (lit "null")).1
        = (resolveFirmwareUrl REPO_URL true true scenarioReleases.reverse (lit "null")).1 :=
  ⟨(List.reverse_perm scenarioReleases).symm, by decide,
    C6_selection_order_independent REPO_URL (lit "null") true scenarioReleases
      scenarioReleases.reverse (List.reverse_perm scenarioReleases).symm (by decide)⟩

/-- C7: when the selection loop ends at index `i` and the release there has name `n`, the
firmware address is "https://github.com/" ++ REPO_URL ++ "/releases/download/" ++ n ++
"/esp32.bin"; for the scenario list of the specification it is the address of `v0.2.3` and
ends in "/download/v0.2.3/esp32.bin". -/
theorem C7_prerelease_url_shape (repoUrl nullName : List Nat) (releases : List Release)
    (i : Nat) (r : Release) (hsel : newestPrereleaseIndex releases = (i : Int))
    (hget : releases[i]? = some r) :
    (resolveFirmwareUrl repoUrl true true releases nullName).1
        = lit "https://github.com/" ++ repoUrl ++ lit "/releases/download/" ++ r.name
            ++ lit "/esp32.bin"
      ∧ (resolveFirmwareUrl REPO_URL true true scenarioReleases nullName).1
        = lit "https://github.com/elliotmatson/esp32-hub75-status/releases/download/v0.2.3/esp32.bin"
      ∧ lit "/download/v0.2.3/esp32.bin"
          <:+ (resolveFirmwareUrl REPO_URL true true scenarioReleases nullName).1 := by
  have e2 : (resolveFirmwareUrl REPO_URL true true scenarioReleases nullName).1
      = lit "https://github.com/elliotmatson/esp32-hub75-status/releases/download/v0.2.3/esp32.bin" := by
    rfl
  refine ⟨?_, e2, ?_⟩
  · simp only [resolveFirmwareUrl, if_true, hsel, nameAt]
    simp [hget, boardFile]
  · rw [e2]
    exact ⟨lit "https://github.com/elliotmatson/esp32-hub75-status/releases", by decide⟩

/-- Witness of C7: the scenario list, where the loop ends at index 1 on `v0.2.3`. -/
theorem C7_prerelease_url_shape_witness :
    newestPrereleaseIndex scenarioReleases = ((1 : Nat) : Int)
      ∧ scenarioReleases[1]? = some ⟨lit "v0.2.3", true, lit "2024-02-01T00:00:00Z"⟩
      ∧ (resolveFirmwareUrl REPO_URL true true scenarioReleases (lit "null")).1
        = lit "https://github.com/" ++ REPO_URL ++ lit "/releases/download/" ++ lit "v0.2.3"
            ++ lit "/esp32.bin" :=
  ⟨by decide, by decide,
    (C7_prerelease_url_shape REPO_URL (lit "null") scenarioReleases 1
      ⟨lit "v0.2.3", true, lit "2024-02-01T00:00:00Z"⟩ (by decide) (by decide)).1⟩

/-- C8 (code defect): on the stable channel the address is built without any request and is
the same in every cycle, but it is
"https://github.com/elliotmatson/esp32-hub75-status/releases/latest/download//esp32.bin",
with two slashes between "download" and the file name, not the single-slash address. -/
theorem C8_stable_url_has_double_slash (jsonBegin : Bool) (releases : List Release)
    (nullName : List Nat) :
    resolveFirmwareUrl REPO_URL false jsonBegin releases nullName
        = (lit "https://github.com/elliotmatson/esp32-hub75-status/releases/latest/download//esp32.bin",
            [])
      ∧ (resolveFirmwareUrl REPO_URL false jsonBegin releases nullName).1
        ≠ lit "https://github.com/" ++ REPO_URL ++ lit "/releases/latest/download/esp32.bin" := by
  have e : resolveFirmwareUrl REPO_URL false jsonBegin releases nullName
      = (lit "https://github.com/elliotmatson/esp32-hub75-status/releases/latest/download//esp32.bin",
          []) := by
    rfl
  refine ⟨e, ?_⟩
  rw [e]
  decide

/-- C9 (code defect): the status test is `httpCode < 300 || httpCode > 400`, so the status
400, which lies outside 200..399, is not rejected: the cycle calls `httpUpdate.update`. -/
theorem C9_status_400_is_updated :
    ¬ ((200 : Int) ≤ 400 ∧ (400 : Int) ≤ 399)
      ∧ checkForUpdatesCycle FW_VERSION REPO_URL false ⟨false, [], [], true, 400, []⟩
          = [Event.head stableUrl, Event.update stableUrl] := by
  refine ⟨by decide, by decide⟩

set_option maxRecDepth 8000 in
/-- C10 (counterexample): with probe status 200 and neither the firmware address nor the
redirect location containing `FW_VERSION`, the cycle takes the "Not updating" branch and
does not call `httpUpdate.update`. -/
theorem C10_status_200_not_updated :
    (200 : Int) ≤ 200 ∧ (200 : Int) ≤ 399
      ∧ ¬ FW_VERSION <:+: stableUrl ∧ ¬ FW_VERSION <:+: ([] : List Nat)
      ∧ checkForUpdatesCycle FW_VERSION REPO_URL false ⟨false, [], [], true, 200, []⟩
          = [Event.head stableUrl, Event.notUpdating] := by
  refine ⟨by decide, by decide, by decide, by decide, by decide⟩

/-- C10 (amended): for every probe status in 300..399, when `http.begin` succeeded on a
non-empty firmware address and neither that address nor the redirect location contains
`FW_VERSION`, the cycle calls `httpUpdate.update` on the firmware address. -/
theorem C10_redirect_status_updates (fwVersion firmwareUrl location : List Nat)
    (httpCode : Int) (hurl : firmwareUrl ≠ []) (hlo : 300 ≤ httpCode) (hhi : httpCode ≤ 399)
    (hnu : ¬ fwVersion <:+: firmwareUrl) (hnl : ¬ fwVersion <:+: location) :
    probeAndUpdate fwVersion firmwareUrl true httpCode location
      = [Event.head firmwareUrl, Event.update firmwareUrl] := by
  have h1 : ¬ 0 < indexOf location fwVersion := fun h => hnl (indexOf_pos_occurs _ _ h)
  have h2 : ¬ 0 < indexOf firmwareUrl fwVersion := fun h => hnu (indexOf_pos_occurs _ _ h)
  have h3 : ¬ httpCode < 300 := by omega
  have h4 : ¬ httpCode > 400 := by omega
  simp [probeAndUpdate, hurl, h1, h2, h3, h4]

set_option maxRecDepth 8000 in
/-- Witness of C10 (amended): the stable address, status 302 and a location without the
version. -/
theorem C10_redirect_status_updates_witness :
    stableUrl ≠ [] ∧ (300 : Int) ≤ 302 ∧ (302 : Int) ≤ 399
      ∧ ¬ FW_VERSION <:+: stableUrl
      ∧ ¬ FW_VERSION <:+: lit "https://example.org/v0.2.4/esp32.bin"
      ∧ probeAndUpdate FW_VERSION stableUrl true 302
          (lit "https://example.org/v0.2.4/esp32.bin")
        = [Event.head stableUrl, Event.update stableUrl] :=
  ⟨by decide, by decide, by decide, by decide, by decide,
    C10_redirect_status_updates FW_VERSION stableUrl
      (lit "https://example.org/v0.2.4/esp32.bin") 302 (by decide) (by decide) (by decide)
      (by decide) (by decide)⟩


/-! ## Facts about the coordinator -/

/-- Deleting the task under a handle of the push loop leaves the poll loop instances. -/
theorem pullTasks_vTaskDelete (s : PanelState) (h : Nat)
    (hc : ∀ t ∈ s.tasks, t.handle = h → t.name ≠ TaskName.checkForUpdates) :
    pullTasks (vTaskDelete h s) = pullTasks s := by
  unfold pullTasks vTaskDelete
  simp only [List.filter_filter]
  apply List.filter_congr
  intro t ht
  by_cases hn : t.name = TaskName.checkForUpdates
  · have hh : t.handle ≠ h := fun e => hc t ht e hn
    simp [hn, hh]
  · simp [hn]

/-- Deleting the task under a handle of the poll loop leaves the push loop instances. -/
theorem pushTasks_vTaskDelete (s : PanelState) (h : Nat)
    (hc : ∀ t ∈ s.tasks, t.handle = h → t.name ≠ TaskName.checkForOTA) :
    pushTasks (vTaskDelete h s) = pushTasks s := by
  unfold pushTasks vTaskDelete
  simp only [List.filter_filter]
  apply List.filter_congr
  intro t ht
  by_cases hn : t.name = TaskName.checkForOTA
  · have hh : t.handle ≠ h := fun e => hc t ht e hn
    simp [hn, hh]
  · simp [hn]

/-- Where `setOTA` does leave the poll loop alone: in a state whose push-loop handle does
not hold the address of a task of another name. -/
theorem setOTA_frame (s : PanelState) (b : Bool)
    (hota : ∀ t ∈ s.tasks, s.checkForOTATask = some t.handle → t.name = TaskName.checkForOTA) :
    (setOTA b s).panelPrefs
        = ⟨s.panelPrefs.brightness, s.panelPrefs.development, b, s.panelPrefs.github,
            s.panelPrefs.signedFWOnly, s.panelPrefs.latchBlanking, s.panelPrefs.use20MHz⟩
      ∧ (setOTA b s).checkForUpdatesTask = s.checkForUpdatesTask
      ∧ (setOTA b s).httpUpdateHandlers = s.httpUpdateHandlers
      ∧ pullTasks (setOTA b s) = pullTasks s := by
  cases b with
  | true =>
    refine ⟨rfl, rfl, rfl, ?_⟩
    simp [setOTA, pullTasks, xTaskCreate, updatePrefs, List.filter_append]
  | false =>
    cases hh : s.checkForOTATask with
    | none => simp [setOTA, hh, updatePrefs, pullTasks]
    | some h =>
      simp only [setOTA, updatePrefs, hh, Bool.false_eq_true, if_false]
      refine ⟨rfl, rfl, rfl, ?_⟩
      rw [pullTasks_vTaskDelete]
      · rfl
      · intro t ht e
        have hn : t.name = TaskName.checkForOTA := hota t ht (by rw [hh, e])
        rw [hn]
        decide

/-- Where `setGHUpdate` does leave the push loop alone: in a state whose poll-loop handle
does not hold the address of a task of another name. -/
theorem setGHUpdate_frame (s : PanelState) (b : Bool)
    (hgh : ∀ t ∈ s.tasks, s.checkForUpdatesTask = some t.handle →
      t.name = TaskName.checkForUpdates) :
    (setGHUpdate b s).panelPrefs
        = ⟨s.panelPrefs.brightness, s.panelPrefs.development, s.panelPrefs.ota, b,
            s.panelPrefs.signedFWOnly, s.panelPrefs.latchBlanking, s.panelPrefs.use20MHz⟩
      ∧ (setGHUpdate b s).checkForOTATask = s.checkForOTATask
      ∧ (setGHUpdate b s).arduinoOTAHandlers = s.arduinoOTAHandlers
      ∧ (setGHUpdate b s).arduinoOTARunning = s.arduinoOTARunning
      ∧ pushTasks (setGHUpdate b s) = pushTasks s := by
  cases b with
  | true =>
    refine ⟨rfl, rfl, rfl, rfl, ?_⟩
    simp [setGHUpdate, pushTasks, xTaskCreate, updatePrefs, List.filter_append]
  | false =>
    cases hh : s.checkForUpdatesTask with
    | none => simp [setGHUpdate, hh, updatePrefs, pushTasks]
    | some h =>
      simp only [setGHUpdate, updatePrefs, hh, Bool.false_eq_true, if_false]
      refine ⟨rfl, rfl, rfl, rfl, ?_⟩
      rw [pushTasks_vTaskDelete]
      · rfl
      · intro t ht e
        have hn : t.name = TaskName.checkForUpdates := hgh t ht (by rw [hh, e])
        rw [hn]
        decide

/-- Every call `setGHUpdate(true)` adds an instance of the poll loop. -/
theorem setGHUpdate_true_adds_task (s : PanelState) :
    (pullTasks (setGHUpdate true s)).length = (pullTasks s).length + 1 := by
  simp [setGHUpdate, pullTasks, xTaskCreate, updatePrefs, List.filter_append]

/-- Every call `setOTA(true)` adds an instance of the push loop. -/
theorem setOTA_true_adds_task (s : PanelState) :
    (pushTasks (setOTA true s)).length = (pushTasks s).length + 1 := by
  simp [setOTA, pushTasks, xTaskCreate, updatePrefs, List.filter_append]


/-- C11 (code defect): the handle members are not reset after `vTaskDelete`, so a later
disabling call deletes whichever task now occupies the stale address.  After
`setOTA(true)`, `setOTA(false)`, `setGHUpdate(true)` the poll task occupies the address the
push task had; a further `setOTA(false)` deletes the poll task while `panelPrefs.github`
stays true.  Symmetrically `setGHUpdate(false)` deletes the push task after
`setGHUpdate(true)`, `setGHUpdate(false)`, `setOTA(true)`. -/
theorem C11_stale_handle_deletes_other_loop :
    pullTasks (setGHUpdate true (setOTA false (setOTA true initialState)))
        = [⟨0, TaskName.checkForUpdates⟩]
      ∧ (setGHUpdate true (setOTA false (setOTA true initialState))).checkForOTATask = some 0
      ∧ pullTasks (setOTA false (setGHUpdate true (setOTA false (setOTA true initialState))))
          = []
      ∧ (setOTA false (setGHUpdate true (setOTA false (setOTA true initialState)))).panelPrefs.github
          = true
      ∧ pushTasks (setOTA true (setGHUpdate false (setGHUpdate true initialState)))
          = [⟨0, TaskName.checkForOTA⟩]
      ∧ pushTasks (setGHUpdate false (setOTA true (setGHUpdate false
          (setGHUpdate true initialState)))) = []
      ∧ (setGHUpdate false (setOTA true (setGHUpdate false
          (setGHUpdate true initialState)))).panelPrefs.ota = true := by
  decide

/-- C12 (code defect): `setGHUpdate(true)` while the poll loop runs creates a second
"Check For Updates" task and overwrites the handle of the first; `setOTA(true)` while the
push loop runs creates a second "Check For OTA" task. -/
theorem C12_second_start_creates_second_task :
    pullTasks (setGHUpdate true initialState) = [⟨0, TaskName.checkForUpdates⟩]
      ∧ pullTasks (setGHUpdate true (setGHUpdate true initialState))
          = [⟨0, TaskName.checkForUpdates⟩, ⟨1, TaskName.checkForUpdates⟩]
      ∧ (setGHUpdate true (setGHUpdate true initialState)).checkForUpdatesTask = some 1
      ∧ pushTasks (setOTA true initialState) = [⟨0, TaskName.checkForOTA⟩]
      ∧ pushTasks (setOTA true (setOTA true initialState))
          = [⟨0, TaskName.checkForOTA⟩, ⟨1, TaskName.checkForOTA⟩] := by
  decide

/-- C13 (code defect): after the calls `setGHUpdate(true)`, `setGHUpdate(true)`,
`setGHUpdate(false)` from the initial state `panelPrefs.github` is false and the first
"Check For Updates" task is still running: the last call deletes only the task under the
overwritten handle. -/
theorem C13_poll_loop_survives_disable :
    (runGHUpdate [true, true, false] initialState).panelPrefs.github = false
      ∧ pullTasks (runGHUpdate [true, true, false] initialState)
          = [⟨0, TaskName.checkForUpdates⟩] := by
  decide

/-- C15: the `ArduinoOTA.onProgress` handler and the `httpUpdate.onProgress` handler decide
alike whether to call `Update.abort()`: they abort exactly when `signedFWOnly` is set,
`progress == total` and `strcmp` of the candidate cookie against the compiled-in cookie is
not zero; with `signedFWOnly` false neither aborts. -/
theorem C15_same_signature_gate (signedFWOnly : Bool) (progress total : Nat)
    (newPanelPartition : PanelPartition) :
    arduinoOTAOnProgressAborts signedFWOnly progress total newPanelPartition
        = httpUpdateOnProgressAborts signedFWOnly progress total newPanelPartition
      ∧ (httpUpdateOnProgressAborts signedFWOnly progress total newPanelPartition = true
          ↔ signedFWOnly = true ∧ progress = total
            ∧ strcmp newPanelPartition.fromCookie panelPartition.fromCookie ≠ 0)
      ∧ arduinoOTAOnProgressAborts false progress total newPanelPartition = false
      ∧ httpUpdateOnProgressAborts false progress total newPanelPartition = false := by
  refine ⟨rfl, ?_, by simp [arduinoOTAOnProgressAborts], by simp [httpUpdateOnProgressAborts]⟩
  unfold httpUpdateOnProgressAborts
  cases signedFWOnly <;> by_cases hpt : progress = total <;> simp [hpt]

/-- C16 (counterexample): two prerelease entries share the greatest `published_at`, the
empty string, and the loop picks neither: `newestPrereleaseIndex` stays `-1`. -/
theorem C16_empty_tie_picks_none :
    newestPrereleaseIndex [⟨lit "v0.2.2", true, []⟩, ⟨lit "v0.2.3", true, []⟩] = -1 := by
  decide

/-- C16 (amended): when the prerelease entry at index `i0` has a non-empty `published_at`
that no prerelease entry exceeds, and no prerelease entry before `i0` has the same
`published_at`, the selection loop ends with `newestPrereleaseIndex = i0`: among the
entries sharing the greatest timestamp the first wins. -/
theorem C16_tie_first_wins (releases : List Release) (i0 : Nat) (r0 : Release)
    (hget : releases[i0]? = some r0) (hpre : r0.prerelease = true)
    (hne : r0.published_at ≠ [])
    (hmax : ∀ (j : Nat) (r : Release), releases[j]? = some r → r.prerelease = true →
      strGt r.published_at r0.published_at = false)
    (hfirst : ∀ (j : Nat) (r : Release), releases[j]? = some r → r.prerelease = true →
      r.published_at = r0.published_at → i0 ≤ j) :
    newestPrereleaseIndex releases = (i0 : Int) := by
  rcases selectionLoop_spec releases with ⟨_, hall⟩ | ⟨i, r, hst, hgeti, hp, _, hmaxi, hfirsti⟩
  · exact absurd (hall r0 (List.getElem?_mem hget) hpre) hne
  · have e : r.published_at = r0.published_at :=
      strGt_total _ _ (hmax i r hgeti hp) (hmaxi i0 r0 hget hpre)
    have h1 : i0 ≤ i := hfirst i r hgeti hp e
    have h2 : ¬ i0 < i := by
      intro hlt
      have := hfirsti i0 r0 hget hpre hlt
      rw [e, strGt_irrefl] at this
      exact absurd this (by decide)
    have h3 : i = i0 := by omega
    simp [newestPrereleaseIndex, hst, h3]


/-- Witness of C16 (amended): of two prerelease entries with the same timestamp the one at
index 0 is selected. -/
theorem C16_tie_first_wins_witness :
    tieReleases[0]? = some ⟨lit "v0.2.2", true, lit "2024-02-01T00:00:00Z"⟩
      ∧ tieReleases[1]? = some ⟨lit "v0.2.3", true, lit "2024-02-01T00:00:00Z"⟩
      ∧ newestPrereleaseIndex tieReleases = ((0 : Nat) : Int) :=
  ⟨by decide, by decide,
    C16_tie_first_wins tieReleases 0 ⟨lit "v0.2.2", true, lit "2024-02-01T00:00:00Z"⟩
      (by decide) (by decide) (by decide)
      (by
        intro j r hj hp
        rcases j with _ | _ | _ | j
        · have e : r = ⟨lit "v0.2.2", true, lit "2024-02-01T00:00:00Z"⟩ := by
            simpa [tieReleases] using hj.symm
          subst e; decide
        · have e : r = ⟨lit "v0.2.3", true, lit "2024-02-01T00:00:00Z"⟩ := by
            simpa [tieReleases] using hj.symm
          subst e; decide
        · have e : r = ⟨lit "v0.2.1", false, lit "2024-03-01T00:00:00Z"⟩ := by
            simpa [tieReleases] using hj.symm
          subst e; exact absurd hp (by decide)
        · simp [tieReleases] at hj)
      (by intro j r _ _ _; omega)⟩

/-! ## Facts about the progress bar -/

theorem constrain_bounds (x : Int) : 0 ≤ constrain x 0 63 ∧ constrain x 0 63 ≤ 63 := by
  unfold constrain
  split_ifs <;> omega

theorem constrain_mono (x y : Int) (h : x ≤ y) : constrain x 0 63 ≤ constrain y 0 63 := by
  unfold constrain
  split_ifs <;> omega

theorem toLong_of_range (x : Int) (h1 : -2147483648 ≤ x) (h2 : x < 2147483648) :
    toLong x = x := by
  unfold toLong
  omega

/-- Without overflow the local `i` is `progress * 256 / total`. -/
theorem map_progress (progress total : Nat) (ht : 0 < total) (ht31 : total < 2147483648)
    (hp : progress * 256 < 2147483648) :
    map (toLong progress) 0 (toLong total) 0 256 = ((progress * 256 / total : Nat) : Int) := by
  have e1 : toLong (progress : Int) = progress := toLong_of_range _ (by omega) (by omega)
  have e2 : toLong (total : Int) = total := toLong_of_range _ (by omega) (by omega)
  have hq : progress * 256 / total ≤ progress * 256 := Nat.div_le_self _ _
  unfold map
  simp only [e1, e2, Int.sub_zero]
  have e3 : toLong (256 : Int) = 256 := by decide
  have e4 : toLong ((progress : Int) * 256) = ((progress * 256 : Nat) : Int) := by
    rw [toLong_of_range _ (by omega) (by omega)]
    push_cast
    rfl
  have hne : (total : Int) ≠ 0 := by omega
  simp only [e3, e4, hne, if_false]
  rw [← Int.ofNat_tdiv, Int.add_zero]
  generalize progress * 256 / total = q at hq ⊢
  exact toLong_of_range _ (by omega) (by omega)

/-- A `total` of 2^31 or more is a negative `long`: the local `i` is not positive. -/
theorem map_progress_wrapped (progress total : Nat) (ht31 : 2147483648 ≤ total)
    (ht32 : total < 4294967296) (hp : progress * 256 < 2147483648) :
    map (toLong progress) 0 (toLong total) 0 256 ≤ 0 := by
  have e1 : toLong (progress : Int) = progress := toLong_of_range _ (by omega) (by omega)
  have e2 : toLong (total : Int) = (total : Int) - 4294967296 := by
    unfold toLong
    omega
  unfold map
  simp only [e1, e2, Int.sub_zero]
  have e3 : toLong (256 : Int) = 256 := by decide
  have e4 : toLong ((progress : Int) * 256) = (progress : Int) * 256 :=
    toLong_of_range _ (by omega) (by omega)
  have e5 : toLong ((total : Int) - 4294967296) = (total : Int) - 4294967296 :=
    toLong_of_range _ (by omega) (by omega)
  have hne : (total : Int) - 4294967296 ≠ 0 := by omega
  simp only [e3, e4, e5, hne, if_false, Int.add_zero]
  have hq : ((progress : Int) * 256).tdiv ((total : Int) - 4294967296) ≤ 0 :=
    Int.tdiv_nonpos (by omega) (by omega)
  have hq2 : -((progress : Int) * 256) ≤ ((progress : Int) * 256).tdiv ((total : Int) - 4294967296) := by
    have h := Int.tdiv_neg ((progress : Int) * 256) (4294967296 - (total : Int))
    rw [show -(4294967296 - (total : Int)) = (total : Int) - 4294967296 by omega] at h
    rw [h]
    have h5 : ((progress : Int) * 256).tdiv (4294967296 - (total : Int)) ≤ (progress : Int) * 256 := by
      rw [Int.tdiv_eq_ediv (by omega) (by omega)]
      exact Int.ediv_le_self _ (by omega)
    omega
  rw [toLong_of_range _ (by omega) (by omega)]
  exact hq


theorem constrain_of_nonpos (x : Int) (h : x ≤ 0) : constrain x 0 63 = 0 := by
  unfold constrain
  split_ifs <;> omega

/-- The local `i` of the progress bar does not decrease with `progress`, or it is never
positive (a `total` that wraps to a negative `long`). -/
theorem map_progress_mono (progress progress2 total : Nat) (htotal : 0 < total)
    (htype : total < 4294967296) (h12 : progress ≤ progress2)
    (hov : progress2 * 256 < 2147483648) :
    map (toLong progress) 0 (toLong total) 0 256 ≤ map (toLong progress2) 0 (toLong total) 0 256
      ∨ (map (toLong progress) 0 (toLong total) 0 256 ≤ 0
          ∧ map (toLong progress2) 0 (toLong total) 0 256 ≤ 0) := by
  by_cases ht : total < 2147483648
  · left
    rw [map_progress progress total htotal ht (by omega),
      map_progress progress2 total htotal ht hov]
    exact Int.ofNat_le.mpr (Nat.div_le_div_right (by omega))
  · right
    exact ⟨map_progress_wrapped progress total (by omega) htype (by omega),
      map_progress_wrapped progress2 total (by omega) htype hov⟩

theorem constrain_sub_mono (i j k : Int) (hk : 0 ≤ k)
    (h : i ≤ j ∨ (i ≤ 0 ∧ j ≤ 0)) : constrain (i - k) 0 63 ≤ constrain (j - k) 0 63 := by
  rcases h with h | ⟨h1, h2⟩
  · exact constrain_mono _ _ (by omega)
  · rw [constrain_of_nonpos _ (by omega), constrain_of_nonpos _ (by omega)]

/-- C20: for `total > 0` and `progress ≤ progress2 ≤ total` with `progress2 * 256` not
overflowing a `long`, the four segment lengths of the progress bar lie in [0, 63], the
start coordinates `63 - length` of the bottom and left segments lie in [0, 63], no length
at `progress` exceeds the one at `progress2`, the lengths are those of
`i = progress * 256 / total` when `total` fits a `long`, and all four are 63 when
`progress2 == total`. -/
theorem C20_progress_bar (progress progress2 total : Nat) (htotal : 0 < total)
    (htype : total < 4294967296) (h12 : progress ≤ progress2) (h2t : progress2 ≤ total)
    (hov : progress2 * 256 < 2147483648) :
    ∃ a b c d a2 b2 c2 d2 : Int,
      progressBar progress total
          = [Draw.fastHLine 0 0 a, Draw.fastVLine 63 0 b, Draw.fastHLine (63 - c) 63 c,
              Draw.fastVLine 0 (63 - d) d]
        ∧ progressBar progress2 total
          = [Draw.fastHLine 0 0 a2, Draw.fastVLine 63 0 b2, Draw.fastHLine (63 - c2) 63 c2,
              Draw.fastVLine 0 (63 - d2) d2]
        ∧ (0 ≤ a ∧ a ≤ 63) ∧ (0 ≤ b ∧ b ≤ 63) ∧ (0 ≤ c ∧ c ≤ 63) ∧ (0 ≤ d ∧ d ≤ 63)
        ∧ (0 ≤ 63 - c ∧ 63 - c ≤ 63) ∧ (0 ≤ 63 - d ∧ 63 - d ≤ 63)
        ∧ a ≤ a2 ∧ b ≤ b2 ∧ c ≤ c2 ∧ d ≤ d2
        ∧ (total < 2147483648 →
            a = constrain ((progress * 256 / total : Nat) : Int) 0 63
              ∧ b = constrain (((progress * 256 / total : Nat) : Int) - 64) 0 63
              ∧ c = constrain (((progress * 256 / total : Nat) : Int) - 128) 0 63
              ∧ d = constrain (((progress * 256 / total : Nat) : Int) - 192) 0 63)
        ∧ (progress2 = total → a2 = 63 ∧ b2 = 63 ∧ c2 = 63 ∧ d2 = 63) := by
  have hm := map_progress_mono progress progress2 total htotal htype h12 hov
  refine ⟨_, _, _, _, _, _, _, _, rfl, rfl, constrain_bounds _, constrain_bounds _,
    constrain_bounds _, constrain_bounds _, ?_, ?_, ?_, ?_, ?_, ?_, ?_, ?_⟩
  · have := constrain_bounds (map (toLong progress) 0 (toLong total) 0 256 - 128)
    omega
  · have := constrain_bounds (map (toLong progress) 0 (toLong total) 0 256 - 192)
    omega
  · have := constrain_sub_mono _ _ 0 (by omega) hm
    simpa using this
  · exact constrain_sub_mono _ _ 64 (by omega) hm
  · exact constrain_sub_mono _ _ 128 (by omega) hm
  · exact constrain_sub_mono _ _ 192 (by omega) hm
  · intro ht
    rw [map_progress progress total htotal ht (by omega)]
    exact ⟨rfl, rfl, rfl, rfl⟩
  · intro e
    subst e
    have ht : progress2 < 2147483648 := by omega
    rw [map_progress progress2 progress2 htotal ht hov,
      Nat.mul_div_cancel_left 256 htotal]
    decide

/-- Witness of C20: half way of 100 bytes the top and right segments are full and the
bottom and left ones empty; at the end all four have length 63. -/
theorem C20_progress_bar_witness :
    progressBar 50 100
        = [Draw.fastHLine 0 0 63, Draw.fastVLine 63 0 63, Draw.fastHLine 63 63 0,
            Draw.fastVLine 0 63 0]
      ∧ progressBar 100 100
        = [Draw.fastHLine 0 0 63, Draw.fastVLine 63 0 63, Draw.fastHLine 0 63 63,
            Draw.fastVLine 0 0 63]
      ∧ ∃ a b c d a2 b2 c2 d2 : Int,
        progressBar 50 100
            = [Draw.fastHLine 0 0 a, Draw.fastVLine 63 0 b, Draw.fastHLine (63 - c) 63 c,
                Draw.fastVLine 0 (63 - d) d]
          ∧ progressBar 100 100
            = [Draw.fastHLine 0 0 a2, Draw.fastVLine 63 0 b2, Draw.fastHLine (63 - c2) 63 c2,
                Draw.fastVLine 0 (63 - d2) d2]
          ∧ a ≤ a2 ∧ b ≤ b2 ∧ c ≤ c2 ∧ d ≤ d2 := by
  refine ⟨by decide, by decide, ?_⟩
  obtain ⟨a, b, c, d, a2, b2, c2, d2, h1, h2, _, _, _, _, _, _, ha, hb, hc, hd, _, _⟩ :=
    C20_progress_bar 50 100 100 (by decide) (by decide) (by decide) (by decide) (by decide)
  exact ⟨a, b, c, d, a2, b2, c2, d2, h1, h2, ha, hb, hc, hd⟩


/-! ## Facts about the decoding loops of `setEmoji` -/

theorem byteAt_append_right (pre l : List Nat) (k : Nat) :
    byteAt (pre ++ l) (pre.length + k) = byteAt l k := by
  induction pre with
  | nil => simp
  | cons x xs ih =>
    simp only [List.cons_append, List.length_cons, byteAt] at ih ⊢
    rw [show xs.length + 1 + k = (xs.length + k) + 1 by omega, List.getD_cons_succ]
    exact ih

theorem byteAt_append_zero (pre l : List Nat) :
    byteAt (pre ++ l) pre.length = byteAt l 0 := by
  simpa using byteAt_append_right pre l 0

/-- The two loops take the same steps on every input: the decoding loop passes exactly as
many slots as the counting loop counts. -/
theorem decodeLoop_length (emoji : List Nat) (len fuel i : Nat) (cps : List Nat) :
    (decodeLoop emoji len fuel i cps).length = countLoop emoji len fuel i cps.length := by
  induction fuel generalizing i cps with
  | zero => rfl
  | succ fuel ih =>
    unfold decodeLoop countLoop
    split_ifs
    · rw [ih]; simp
    · rw [ih]; simp
    · rw [ih]; simp
    · rw [ih]; simp
    · rfl

theorem or_low (hi lo i : Nat) (h : lo < 2 ^ i) : (hi * 2 ^ i) ||| lo = hi * 2 ^ i + lo := by
  rw [Nat.mul_comm hi (2 ^ i)]
  exact (Nat.mul_add_lt_is_or h hi).symm

theorem and_mask (x n : Nat) : x &&& (2 ^ n - 1) = x % 2 ^ n :=
  Nat.and_pow_two_sub_one_eq_mod x n

theorem decode_two (b0 b1 : Nat) (h : isUtf8Seq [b0, b1] = true) :
    ((b0 &&& 0x1F) <<< 6) ||| (b1 &&& 0x3F) = utf8Value [b0, b1] := by
  simp only [isUtf8Seq, isContinuation, Bool.and_eq_true, decide_eq_true_eq] at h
  have e0 : b0 &&& 0x1F = b0 % 32 := and_mask b0 5
  have e1 : b1 &&& 0x3F = b1 % 64 := and_mask b1 6
  rw [e0, e1, Nat.shiftLeft_eq, or_low _ _ 6 (by omega)]
  simp only [utf8Value]
  omega

theorem decode_three (b0 b1 b2 : Nat) (h : isUtf8Seq [b0, b1, b2] = true) :
    (((b0 &&& 0x0F) <<< 12) ||| ((b1 &&& 0x3F) <<< 6)) ||| (b2 &&& 0x3F)
      = utf8Value [b0, b1, b2] := by
  simp only [isUtf8Seq, isContinuation, Bool.and_eq_true, decide_eq_true_eq] at h
  have e0 : b0 &&& 0x0F = b0 % 16 := and_mask b0 4
  have e1 : b1 &&& 0x3F = b1 % 64 := and_mask b1 6
  have e2 : b2 &&& 0x3F = b2 % 64 := and_mask b2 6
  rw [e0, e1, e2, Nat.shiftLeft_eq, Nat.shiftLeft_eq, or_low _ _ 12 (by omega)]
  rw [show b0 % 16 * 2 ^ 12 + b1 % 64 * 2 ^ 6 = (b0 % 16 * 64 + b1 % 64) * 2 ^ 6 by omega,
    or_low _ _ 6 (by omega)]
  simp only [utf8Value]
  omega

theorem decode_four (b0 b1 b2 b3 : Nat) (h : isUtf8Seq [b0, b1, b2, b3] = true) :
    ((((b0 &&& 0x07) <<< 18) ||| ((b1 &&& 0x3F) <<< 12)) ||| ((b2 &&& 0x3F) <<< 6))
        ||| (b3 &&& 0x3F)
      = utf8Value [b0, b1, b2, b3] := by
  simp only [isUtf8Seq, isContinuation, Bool.and_eq_true, decide_eq_true_eq] at h
  have e0 : b0 &&& 0x07 = b0 % 8 := and_mask b0 3
  have e1 : b1 &&& 0x3F = b1 % 64 := and_mask b1 6
  have e2 : b2 &&& 0x3F = b2 % 64 := and_mask b2 6
  have e3 : b3 &&& 0x3F = b3 % 64 := and_mask b3 6
  rw [e0, e1, e2, e3, Nat.shiftLeft_eq, Nat.shiftLeft_eq, Nat.shiftLeft_eq,
    or_low _ _ 18 (by omega)]
  rw [show b0 % 8 * 2 ^ 18 + b1 % 64 * 2 ^ 12 = (b0 % 8 * 64 + b1 % 64) * 2 ^ 12 by omega,
    or_low _ _ 12 (by omega)]
  rw [show (b0 % 8 * 64 + b1 % 64) * 2 ^ 12 + b2 % 64 * 2 ^ 6
      = ((b0 % 8 * 64 + b1 % 64) * 64 + b2 % 64) * 2 ^ 6 by omega,
    or_low _ _ 6 (by omega)]
  simp only [utf8Value]
  omega

/-- The encoder produces sequences of the form `isUtf8Seq`, and `utf8Value` reads the
scalar value back. -/
theorem utf8Value_utf8Encode (c : Nat) (h1 : 0x80 ≤ c) (h2 : c < 0x200000) :
    isUtf8Seq (utf8Encode c) = true ∧ utf8Value (utf8Encode c) = c := by
  unfold utf8Encode
  split_ifs with ha hb
  · simp only [isUtf8Seq, isContinuation, utf8Value, Bool.and_eq_true, decide_eq_true_eq]
    omega
  · simp only [isUtf8Seq, isContinuation, utf8Value, Bool.and_eq_true, decide_eq_true_eq]
    omega
  · simp only [isUtf8Seq, isContinuation, utf8Value, Bool.and_eq_true, decide_eq_true_eq]
    omega


/-- The decoding loop on a concatenation of sequences, started at the first byte of one of
them, passes one slot per sequence and writes the value of the sequence into it. -/
theorem decodeLoop_seqs (seqs : List (List Nat)) :
    ∀ (pre : List Nat) (fuel : Nat) (cps emoji : List Nat) (len i : Nat),
      (∀ s ∈ seqs, isUtf8Seq s = true) → emoji = pre ++ seqs.flatten → len = emoji.length →
      i = pre.length → seqs.flatten.length ≤ fuel →
      decodeLoop emoji len fuel i cps = cps ++ seqs.map utf8Value := by
  induction seqs with
  | nil =>
    intro pre fuel cps emoji len i _ he hl hi _
    have hil : ¬ i < len := by
      rw [hl, he, hi]; simp
    cases fuel with
    | zero => simp [decodeLoop]
    | succ f => simp [decodeLoop, hil]
  | cons s ss ih =>
    intro pre fuel cps emoji len i hall he hl hi hfuel
    have hs : isUtf8Seq s = true := hall s (by simp)
    have hss : ∀ t ∈ ss, isUtf8Seq t = true := fun t ht => hall t (by simp [ht])
    rcases s with _ | ⟨b0, _ | ⟨b1, _ | ⟨b2, _ | ⟨b3, _ | ⟨b4, rest⟩⟩⟩⟩⟩
    · simp [isUtf8Seq] at hs
    · simp [isUtf8Seq] at hs
    · -- two bytes
      have hv := decode_two b0 b1 hs
      simp only [isUtf8Seq, isContinuation, Bool.and_eq_true, decide_eq_true_eq] at hs
      simp only [List.flatten_cons, List.length_append, List.length_cons, List.length_nil]
        at hfuel
      obtain ⟨f, rfl⟩ : ∃ f, fuel = f + 1 := ⟨fuel - 1, by omega⟩
      have hb0 : byteAt emoji i = b0 := by
        rw [he, hi, byteAt_append_zero]; rfl
      have hb1 : byteAt emoji (i + 1) = b1 := by
        rw [he, hi, byteAt_append_right]; rfl
      have hil : i < len := by
        rw [hl, he, hi]; simp
      rw [decodeLoop, if_pos hil, hb0, hb1, if_pos ⟨hs.1.1, hs.1.2⟩, hv]
      rw [ih (pre ++ [b0, b1]) f _ emoji len _ hss (by simp [he]) hl (by simp [hi])
        (by omega)]
      simp
    · -- three bytes
      have hv := decode_three b0 b1 b2 hs
      simp only [isUtf8Seq, isContinuation, Bool.and_eq_true, decide_eq_true_eq] at hs
      simp only [List.flatten_cons, List.length_append, List.length_cons, List.length_nil]
        at hfuel
      obtain ⟨f, rfl⟩ : ∃ f, fuel = f + 1 := ⟨fuel - 1, by omega⟩
      have hb0 : byteAt emoji i = b0 := by
        rw [he, hi, byteAt_append_zero]; rfl
      have hb1 : byteAt emoji (i + 1) = b1 := by
        rw [he, hi, byteAt_append_right]; rfl
      have hb2 : byteAt emoji (i + 2) = b2 := by
        rw [he, hi, byteAt_append_right]; rfl
      have hil : i < len := by
        rw [hl, he, hi]; simp
      have hn2 : ¬ (0xC0 ≤ b0 ∧ b0 ≤ 0xDF) := by omega
      rw [decodeLoop, if_pos hil, hb0, hb1, hb2, if_neg hn2, if_pos ⟨hs.1.1.1, hs.1.1.2⟩, hv]
      rw [ih (pre ++ [b0, b1, b2]) f _ emoji len _ hss (by simp [he]) hl (by simp [hi])
        (by omega)]
      simp
    · -- four bytes
      have hv := decode_four b0 b1 b2 b3 hs
      simp only [isUtf8Seq, isContinuation, Bool.and_eq_true, decide_eq_true_eq] at hs
      simp only [List.flatten_cons, List.length_append, List.length_cons, List.length_nil]
        at hfuel
      obtain ⟨f, rfl⟩ : ∃ f, fuel = f + 1 := ⟨fuel - 1, by omega⟩
      have hb0 : byteAt emoji i = b0 := by
        rw [he, hi, byteAt_append_zero]; rfl
      have hb1 : byteAt emoji (i + 1) = b1 := by
        rw [he, hi, byteAt_append_right]; rfl
      have hb2 : byteAt emoji (i + 2) = b2 := by
        rw [he, hi, byteAt_append_right]; rfl
      have hb3 : byteAt emoji (i + 3) = b3 := by
        rw [he, hi, byteAt_append_right]; rfl
      have hil : i < len := by
        rw [hl, he, hi]; simp
      have hn2 : ¬ (0xC0 ≤ b0 ∧ b0 ≤ 0xDF) := by omega
      have hn3 : ¬ (0xE0 ≤ b0 ∧ b0 ≤ 0xEF) := by omega
      rw [decodeLoop, if_pos hil, hb0, hb1, hb2, hb3, if_neg hn2, if_neg hn3,
        if_pos ⟨hs.1.1.1.1, hs.1.1.1.2⟩, hv]
      rw [ih (pre ++ [b0, b1, b2, b3]) f _ emoji len _ hss (by simp [he]) hl (by simp [hi])
        (by omega)]
      simp
    · simp [isUtf8Seq] at hs

/-- C18: for every byte string of at most 255 bytes that is a concatenation of 2-, 3- and
4-byte UTF-8 sequences, the counting loop counts the sequences, the decoding loop ends
with `codepointIndex` equal to `codepointCount`, and slot `k` of `codepoints` holds the
scalar value the `k`-th sequence encodes. -/
theorem C18_utf8_decoding (seqs : List (List Nat)) (hseq : ∀ s ∈ seqs, isUtf8Seq s = true)
    (hlen : seqs.flatten.length ≤ 255) :
    codepointCount seqs.flatten = seqs.length
      ∧ (codepoints seqs.flatten).length = codepointCount seqs.flatten
      ∧ codepoints seqs.flatten = seqs.map utf8Value
      ∧ ∀ (k : Nat) (s : List Nat), seqs[k]? = some s →
          (codepoints seqs.flatten)[k]? = some (utf8Value s) := by
  have hl : emojiLen seqs.flatten = seqs.flatten.length := by
    unfold emojiLen
    omega
  have hd : codepoints seqs.flatten = seqs.map utf8Value := by
    unfold codepoints
    rw [hl, decodeLoop_seqs seqs [] _ [] seqs.flatten _ 0 hseq (by simp) rfl rfl (Nat.le_refl _)]
    simp
  have hc : (codepoints seqs.flatten).length = codepointCount seqs.flatten := by
    unfold codepoints codepointCount
    rw [decodeLoop_length]
    rfl
  refine ⟨?_, hc, hd, ?_⟩
  · rw [← hc, hd]; simp
  · intro k s hk
    rw [hd, List.getElem?_map, hk]
    rfl

/-- Witness of C18: the bytes of "é" (U+00E9), "€" (U+20AC) and the grinning face
(U+1F600) decode to these three scalar values. -/
theorem C18_utf8_decoding_witness :
    codepointCount [0xC3, 0xA9, 0xE2, 0x82, 0xAC, 0xF0, 0x9F, 0x98, 0x80] = 3
      ∧ codepoints [0xC3, 0xA9, 0xE2, 0x82, 0xAC, 0xF0, 0x9F, 0x98, 0x80]
          = [0xE9, 0x20AC, 0x1F600] := by
  have h := C18_utf8_decoding [[0xC3, 0xA9], [0xE2, 0x82, 0xAC], [0xF0, 0x9F, 0x98, 0x80]]
    (by decide) (by decide)
  exact ⟨h.1, h.2.2.1⟩


/-! ## Facts about the emoji key and the endpoint -/

theorem intercalate_snoc (sep : List Nat) (rs : List (List Nat)) (r : List Nat)
    (h : rs ≠ []) :
    List.intercalate sep (rs ++ [r]) = List.intercalate sep rs ++ sep ++ r := by
  induction rs with
  | nil => exact absurd rfl h
  | cons x xs ih =>
    cases xs with
    | nil => simp [List.intercalate]
    | cons y ys =>
      have ih2 := ih (by simp)
      simp only [List.intercalate, List.cons_append, List.intersperse_cons₂,
        List.flatten_cons] at ih2 ⊢
      rw [ih2]
      simp [List.append_assoc]

theorem map_range_ne_nil (f : Nat → List Nat) (i : Nat) (h : 1 ≤ i) :
    (List.range i).map f ≠ [] := by
  intro e
  have hl := congrArg List.length e
  simp at hl
  omega

/-- The joiner indices of a walk from `i` lie at `i` or later, hold a joiner and have a
codepoint after them. -/
theorem walkJoiners_mem (cps : List Nat) (fuel i j : Nat) (h : j ∈ walkJoiners cps fuel i) :
    i ≤ j ∧ cps.getD j 0 = 0x200D ∧ j + 1 < cps.length := by
  induction fuel generalizing i with
  | zero => simp [walkJoiners] at h
  | succ fuel ih =>
    rw [walkJoiners] at h
    split_ifs at h with h1 h2 h3
    · rcases List.mem_cons.mp h with e | hm
      · subst e
        exact ⟨Nat.le_refl _, h2.1, h2.2⟩
      · have := ih (i + 2) hm
        exact ⟨by omega, this.2.1, this.2.2⟩
    · have := ih (i + 1) h
      exact ⟨by omega, this.2.1, this.2.2⟩
    · simp at h
    · simp at h

/-- Adding the index `i` to the joiner indices does not change the text of the codepoints
before `i`. -/
theorem map_renderAt_snoc (cps J : List Nat) (i : Nat) :
    (List.range i).map (renderAt cps (J ++ [i])) = (List.range i).map (renderAt cps J) := by
  apply List.map_congr_left
  intro j hj
  have hlt : j < i := List.mem_range.mp hj
  have hne : j ≠ i := by omega
  unfold renderAt
  by_cases hm : j ∈ J
  · rw [if_pos hm, if_pos (List.mem_append.mpr (Or.inl hm))]
  · have hm2 : j ∉ J ++ [i] := by
      intro h
      rcases List.mem_append.mp h with h | h
      · exact hm h
      · exact hne (by simpa using h)
    rw [if_neg hm, if_neg hm2]

/-- Invariant of the key loop: the text is the "_"-joined text of the codepoints before
index `i`, each written as `renderAt` says for the joiner indices found so far. -/
theorem keyLoop_exact (cps : List Nat) :
    ∀ (fuel : Nat) (s : List Nat) (i : Nat) (J : List Nat),
      1 ≤ i → (∀ j ∈ J, j < i) →
      s = List.intercalate (lit "_") ((List.range i).map (renderAt cps J)) →
      (keyLoop cps cps.length fuel (s, i)).1
        = List.intercalate (lit "_")
            ((List.range (keyLoop cps cps.length fuel (s, i)).2).map
              (renderAt cps (J ++ walkJoiners cps fuel i))) := by
  intro fuel
  induction fuel with
  | zero =>
    intro s i J _ _ hs
    simpa [keyLoop, walkJoiners] using hs
  | succ fuel ih =>
    intro s i J h1 hJ hs
    have hne := map_range_ne_nil (renderAt cps J) i h1
    rw [keyLoop, walkJoiners]
    dsimp only
    by_cases hlt : i < cps.length
    · rw [if_pos hlt, if_pos hlt]
      by_cases hj : cps.getD i 0 = 0x200D ∧ i + 1 < cps.length
      · rw [if_pos hj, if_pos hj]
        have hiJ : i ∉ J := fun hm => Nat.lt_irrefl _ (hJ i hm)
        have hi1J : i + 1 ∉ J ++ [i] := by
          intro h
          rcases List.mem_append.mp h with h | h
          · have := hJ _ h; omega
          · simp at h
        have hr0 : renderAt cps (J ++ [i]) i = lit "200D" := by
          unfold renderAt
          rw [if_pos (by simp)]
        have hr1 : renderAt cps (J ++ [i]) (i + 1) = hexString (cps.getD (i + 1) 0) := by
          unfold renderAt
          rw [if_neg hi1J]
        have key := ih (s ++ (lit "_200D_" ++ hexString (cps.getD (i + 1) 0))) (i + 2)
          (J ++ [i]) (by omega)
          (by
            intro j hj2
            rcases List.mem_append.mp hj2 with h | h
            · have := hJ _ h; omega
            · have : j = i := by simpa using h
              omega)
          (by
            rw [show i + 2 = (i + 1) + 1 by omega, List.range_succ, List.range_succ,
              List.map_append, List.map_append, map_renderAt_snoc]
            simp only [List.map_cons, List.map_nil, hr0, hr1]
            rw [intercalate_snoc _ _ _ (by simp), intercalate_snoc _ _ _ hne, hs]
            have e : lit "_200D_" = lit "_" ++ lit "200D" ++ lit "_" := by decide
            rw [e]
            simp [List.append_assoc])
        rw [key]
        simp [List.append_assoc]
      · rw [if_neg hj, if_neg hj]
        by_cases hk : cps.getD i 0 ≥ 0x1F3FB ∧ cps.getD i 0 ≤ 0x1F3FF
        · have hk2 : isSkinTone (cps.getD i 0) = true := by
            simp only [isSkinTone, Bool.and_eq_true, decide_eq_true_eq]
            omega
          rw [if_pos hk, if_pos hk2]
          have hiJ : i ∉ J := fun hm => Nat.lt_irrefl _ (hJ i hm)
          have hr0 : renderAt cps J i = hexString (cps.getD i 0) := by
            unfold renderAt
            rw [if_neg hiJ]
          exact ih (s ++ (lit "_" ++ hexString (cps.getD i 0))) (i + 1) J (by omega)
            (by intro j hj2; have := hJ _ hj2; omega)
            (by
              rw [List.range_succ, List.map_append]
              simp only [List.map_cons, List.map_nil, hr0]
              rw [intercalate_snoc _ _ _ hne, hs]
              simp [List.append_assoc])
        · have hk2 : ¬ isSkinTone (cps.getD i 0) = true := by
            simp only [isSkinTone, Bool.and_eq_true, decide_eq_true_eq]
            omega
          rw [if_neg hk, if_neg hk2]
          simpa using hs
    · rw [if_neg hlt, if_neg hlt]
      simpa using hs

/-- The index the key loop ends at is where the walk ends. -/
theorem keyLoop_index (cps : List Nat) (fuel : Nat) (s : List Nat) (i : Nat) :
    (keyLoop cps cps.length fuel (s, i)).2 = walkStop cps fuel i := by
  induction fuel generalizing s i with
  | zero => rfl
  | succ fuel ih =>
    rw [keyLoop, walkStop]
    dsimp only
    by_cases h1 : i < cps.length
    · rw [if_pos h1, if_pos h1]
      by_cases h2 : cps.getD i 0 = 0x200D ∧ i + 1 < cps.length
      · rw [if_pos h2, if_pos h2]
        exact ih _ _
      · rw [if_neg h2, if_neg h2]
        by_cases h3 : cps.getD i 0 ≥ 0x1F3FB ∧ cps.getD i 0 ≤ 0x1F3FF
        · have h4 : isSkinTone (cps.getD i 0) = true := by
            simp only [isSkinTone, Bool.and_eq_true, decide_eq_true_eq]
            omega
          rw [if_pos h3, if_pos h4]
          exact ih _ _
        · have h4 : ¬ isSkinTone (cps.getD i 0) = true := by
            simp only [isSkinTone, Bool.and_eq_true, decide_eq_true_eq]
            omega
          rw [if_neg h3, if_neg h4]
    · rw [if_neg h1, if_neg h1]

/-- With enough fuel the walk ends by its own test: at the end of the list or at a
codepoint that is neither a joiner followed by another codepoint nor a skin-tone
modifier. -/
theorem walkStop_done (cps : List Nat) (fuel i : Nat) (h : cps.length ≤ fuel + i) :
    cps.length ≤ walkStop cps fuel i ∨ continuesAt cps (walkStop cps fuel i) = false := by
  induction fuel generalizing i with
  | zero => left; simpa [walkStop] using h
  | succ fuel ih =>
    rw [walkStop]
    split_ifs with h1 h2 h3
    · exact ih _ (by omega)
    · exact ih _ (by omega)
    · right
      simp only [continuesAt, Bool.or_eq_false_iff, Bool.and_eq_false_imp, beq_iff_eq,
        decide_eq_false_iff_not]
      refine ⟨fun e hlt => h2 ⟨e, hlt⟩, ?_⟩
      simpa using h3
    · left; omega

/-- The start of the key: the first codepoint and, when it is a skin-tone modifier or a
regional indicator, the second, both in hexadecimal. -/
theorem keyHead_exact (cps : List Nat) (hn : 1 ≤ cps.length) :
    (keyHead cps cps.length).1
        = List.intercalate (lit "_") ((List.range (walkStart cps)).map (renderAt cps []))
      ∧ (keyHead cps cps.length).2 = walkStart cps
      ∧ 1 ≤ walkStart cps ∧ walkStart cps ≤ cps.length := by
  by_cases hskin : cps.length > 1 ∧ cps.getD 1 0 ≥ 0x1F3FB ∧ cps.getD 1 0 ≤ 0x1F3FF
  · have hreg : ¬ (cps.length > 1 ∧ cps.getD 1 0 ≥ 0x1F1E6 ∧ cps.getD 1 0 ≤ 0x1F1FF) := by
      omega
    have hw : cps.length > 1 ∧ (isSkinTone (cps.getD 1 0) = true
        ∨ isRegionalIndicator (cps.getD 1 0) = true) := by
      refine ⟨hskin.1, Or.inl ?_⟩
      simp only [isSkinTone, Bool.and_eq_true, decide_eq_true_eq]
      omega
    have e : keyHead cps cps.length
        = (hexString (cps.getD 0 0) ++ (lit "_" ++ hexString (cps.getD 1 0)), 2) := by
      unfold keyHead
      dsimp only
      rw [if_neg hreg, if_pos hskin]
    have ew : walkStart cps = 2 := by
      unfold walkStart
      rw [if_pos hw]
    rw [e, ew]
    refine ⟨?_, rfl, by omega, by omega⟩
    simp [List.range_succ, renderAt, List.intercalate]
  · by_cases hreg : cps.length > 1 ∧ cps.getD 1 0 ≥ 0x1F1E6 ∧ cps.getD 1 0 ≤ 0x1F1FF
    · have hw : cps.length > 1 ∧ (isSkinTone (cps.getD 1 0) = true
          ∨ isRegionalIndicator (cps.getD 1 0) = true) := by
        refine ⟨hreg.1, Or.inr ?_⟩
        simp only [isRegionalIndicator, Bool.and_eq_true, decide_eq_true_eq]
        omega
      have e : keyHead cps cps.length
          = (hexString (cps.getD 0 0) ++ (lit "_" ++ hexString (cps.getD 1 0)), 2) := by
        unfold keyHead
        dsimp only
        rw [if_pos hreg, if_neg hskin]
      have ew : walkStart cps = 2 := by
        unfold walkStart
        rw [if_pos hw]
      rw [e, ew]
      refine ⟨?_, rfl, by omega, by omega⟩
      simp [List.range_succ, renderAt, List.intercalate]
    · have hw : ¬ (cps.length > 1 ∧ (isSkinTone (cps.getD 1 0) = true
          ∨ isRegionalIndicator (cps.getD 1 0) = true)) := by
        simp only [isSkinTone, isRegionalIndicator, Bool.and_eq_true, decide_eq_true_eq]
        omega
      have e : keyHead cps cps.length = (hexString (cps.getD 0 0), 1) := by
        unfold keyHead
        dsimp only
        rw [if_neg hreg, if_neg hskin]
      have ew : walkStart cps = 1 := by
        unfold walkStart
        rw [if_neg hw]
      rw [e, ew]
      refine ⟨?_, rfl, by omega, by omega⟩
      simp [List.range_succ, renderAt, List.intercalate]

theorem walkStop_ge (cps : List Nat) (fuel i : Nat) : i ≤ walkStop cps fuel i := by
  induction fuel generalizing i with
  | zero => exact Nat.le_refl _
  | succ fuel ih =>
    rw [walkStop]
    split_ifs
    · have := ih (i + 2); omega
    · have := ih (i + 1); omega
    · exact Nat.le_refl _
    · exact Nat.le_refl _

theorem walkStop_le (cps : List Nat) (fuel i : Nat) (h : i ≤ cps.length) :
    walkStop cps fuel i ≤ cps.length := by
  induction fuel generalizing i with
  | zero => exact h
  | succ fuel ih =>
    rw [walkStop]
    split_ifs with h1 h2 h3
    · exact ih _ (by omega)
    · exact ih _ (by omega)
    · exact h
    · exact h

/-- A joiner index of the walk and the codepoint after it lie before the index the walk
ends at. -/
theorem walkJoiners_lt_walkStop (cps : List Nat) (fuel i j : Nat)
    (h : j ∈ walkJoiners cps fuel i) : j + 2 ≤ walkStop cps fuel i := by
  induction fuel generalizing i with
  | zero => simp [walkJoiners] at h
  | succ fuel ih =>
    rw [walkJoiners] at h
    rw [walkStop]
    split_ifs at h ⊢ with h1 h2 h3
    · rcases List.mem_cons.mp h with e | hm
      · subst e
        exact walkStop_ge cps fuel (j + 2)
      · exact ih _ hm
    · exact ih _ h
    · simp at h
    · simp at h

/-- The counting loop and the decoding loop agree for every input of `setEmoji`. -/
theorem codepoints_length (emoji : List Nat) :
    (codepoints emoji).length = codepointCount emoji := by
  unfold codepoints codepointCount
  rw [decodeLoop_length]
  rfl

/-- For an argument whose first byte is above 0x7F, `setEmoji` asks the emoji server for
the key of the decoded codepoints. -/
theorem setEmoji_url (emoji : List Nat) (net : EmojiNet) (h : byteAt emoji 0 > 0x7F) :
    (setEmoji emoji net).2
      = some (lit "https://emojiapi.dev/api/v1/"
          ++ (emojiKey (codepoints emoji) (codepoints emoji).length).1 ++ lit "/32.raw") := by
  unfold setEmoji
  rw [if_pos h, codepoints_length]
  dsimp only
  split_ifs <;> rfl

/-- The status of `POST /api/v1/emoji` for a request with the argument: 200 exactly when
`setEmoji` returns a code other than `ESP_OK`, 400 exactly when it returns `ESP_OK`. -/
theorem postEmoji_status (emoji : List Nat) (net : EmojiNet) :
    ((postEmoji (some emoji) net).1 = 200 ↔ (setEmoji emoji net).1 ≠ ESP_OK)
      ∧ ((postEmoji (some emoji) net).1 = 400 ↔ (setEmoji emoji net).1 = ESP_OK) := by
  unfold postEmoji ESP_OK
  dsimp only
  split_ifs with h
  · simp [h]
  · have h0 : (setEmoji emoji net).1 = 0 := not_not.mp h
    simp [h0]

/-- C17 (code defect): the handler tests `if (setEmoji(...))`, which holds for every code
other than `ESP_OK` = 0.  The argument "A" makes `setEmoji` return `ESP_ERR_INVALID_ARG`
and the handler answers 200; the grinning face, downloaded with success, makes it return
`ESP_OK` and the handler answers 400 "Invalid emoji". -/
theorem C17_status_mapping_inverted :
    (setEmoji (lit "A") ⟨true, 200, 4096⟩).1 = ESP_ERR_INVALID_ARG
      ∧ postEmoji (some (lit "A")) ⟨true, 200, 4096⟩ = (200, lit "\x7b\"emoji\":\"A\"")
      ∧ (setEmoji grinningFace ⟨true, 200, 4096⟩).1 = ESP_OK
      ∧ postEmoji (some grinningFace) ⟨true, 200, 4096⟩
          = (400, lit "\x7b\"error\": \"Invalid emoji\"\x7d") := by
  decide

/-- C19 (counterexample): two clauses of the claim fail.  The stopping rule fails under each
reading of "the first codepoint after position 1": for "man, joiner, woman" the key takes
all three codepoints, while the first codepoint from index 1 (or 2) on that is neither a
joiner followed by another codepoint nor a skin-tone modifier is at index 2; for a flag
followed by a face the key takes the regional indicator at index 1, which is neither; for
two faces followed by a skin-tone modifier the key stops at index 1, before a walk from
index 2 would begin.  The rendering clause fails as well: a joiner at index 0 and a joiner
taken as the codepoint after a joiner are written "200d", not as the literal "200D". -/
theorem C19_stop_rule_fails :
    emojiKey manJoinerWoman 3 = (lit "1f468_200D_1f469", 3)
      ∧ scanStop manJoinerWoman 1 = 2 ∧ scanStop manJoinerWoman 2 = 2
      ∧ emojiKey flagThenFace 3 = (lit "1f1fa_1f1f8", 2)
      ∧ scanStop flagThenFace 1 = 1 ∧ walkStop flagThenFace 3 1 = 1
      ∧ emojiKey facesThenTone 3 = (lit "1f600", 1)
      ∧ scanStop facesThenTone 2 = 3 ∧ walkStop facesThenTone 3 2 = 3
      ∧ emojiKey [0x200D] 1 = (lit "200d", 1)
      ∧ emojiKey manJoinerJoiner 3 = (lit "1f468_200D_200d", 3)
      ∧ lit "200d" ≠ lit "200D" := by
  decide

/-- C19 (amended): for every non-empty codepoint list the key is the "_"-joined text of the
first `k` codepoints, `1 ≤ k ≤ codepointCount`, none skipped or reordered: the codepoint at
index `j` is written as the literal "200D" when the walk finds it as a joiner followed by
another codepoint, and in lower-case hexadecimal otherwise (so also a joiner at index 0 or
one taken as the codepoint after a joiner).  The codepoint at index 1 is taken when it is
a skin-tone modifier or a regional indicator; from there a joiner followed by another
codepoint takes both, a skin-tone modifier takes itself, and consumption ends at the end
of the list or at the first codepoint so reached that is neither. -/
theorem C19_emoji_key (cps : List Nat) (hne : cps ≠ []) :
    ∃ (k : Nat),
      emojiKey cps cps.length
          = (List.intercalate (lit "_")
              ((List.range k).map
                (renderAt cps (walkJoiners cps cps.length (walkStart cps)))), k)
        ∧ 1 ≤ k ∧ k ≤ cps.length
        ∧ k = walkStop cps cps.length (walkStart cps)
        ∧ (k = cps.length ∨ continuesAt cps k = false)
        ∧ ∀ j ∈ walkJoiners cps cps.length (walkStart cps),
            walkStart cps ≤ j ∧ j + 1 < k ∧ cps.getD j 0 = 0x200D := by
  have hn : 1 ≤ cps.length := by
    cases cps with
    | nil => exact absurd rfl hne
    | cons _ _ => simp
  obtain ⟨hs0, hi0, hw1, hw2⟩ := keyHead_exact cps hn
  have hk : emojiKey cps cps.length
      = keyLoop cps cps.length cps.length
          ((keyHead cps cps.length).1, (keyHead cps cps.length).2) := rfl
  have hex := keyLoop_exact cps cps.length (keyHead cps cps.length).1
    (keyHead cps cps.length).2 [] (by omega) (by simp) (by rw [hi0]; exact hs0)
  have hidx := keyLoop_index cps cps.length (keyHead cps cps.length).1
    (keyHead cps cps.length).2
  rw [← hk] at hex hidx
  rw [hi0] at hex hidx
  rw [List.nil_append] at hex
  have hge := walkStop_ge cps cps.length (walkStart cps)
  have hle := walkStop_le cps cps.length (walkStart cps) hw2
  refine ⟨(emojiKey cps cps.length).2, ?_, by omega, by omega, hidx, ?_, ?_⟩
  · rw [← hex]
  · rcases walkStop_done cps cps.length (walkStart cps) (by omega) with h | h
    · left; omega
    · right; rw [hidx]; exact h
  · intro j hj
    have hm := walkJoiners_mem cps cps.length (walkStart cps) j hj
    have hb := walkJoiners_lt_walkStop cps cps.length (walkStart cps) j hj
    exact ⟨hm.1, by omega, hm.2.1⟩

/-- Witness of C19 (amended): the key of "man, joiner, woman", whose joiner at index 1 is
the one index written as the literal. -/
theorem C19_emoji_key_witness :
    manJoinerWoman ≠ []
      ∧ emojiKey manJoinerWoman manJoinerWoman.length = (lit "1f468_200D_1f469", 3)
      ∧ walkJoiners manJoinerWoman manJoinerWoman.length (walkStart manJoinerWoman) = [1]
      ∧ ∃ (k : Nat),
        emojiKey manJoinerWoman manJoinerWoman.length
            = (List.intercalate (lit "_")
                ((List.range k).map
                  (renderAt manJoinerWoman
                    (walkJoiners manJoinerWoman manJoinerWoman.length
                      (walkStart manJoinerWoman)))), k)
          ∧ 1 ≤ k ∧ k ≤ manJoinerWoman.length
          ∧ k = walkStop manJoinerWoman manJoinerWoman.length (walkStart manJoinerWoman)
          ∧ (k = manJoinerWoman.length ∨ continuesAt manJoinerWoman k = false)
          ∧ ∀ j ∈ walkJoiners manJoinerWoman manJoinerWoman.length
              (walkStart manJoinerWoman),
              walkStart manJoinerWoman ≤ j ∧ j + 1 < k
                ∧ manJoinerWoman.getD j 0 = 0x200D :=
  ⟨by decide, by decide, by decide, C19_emoji_key manJoinerWoman (by decide)⟩

/-! ## Facts about the response bodies -/

/-- The body of `GET /api/v1/text` is the 200 body of `POST /api/v1/text` followed by the
closing brace the latter lacks. -/
theorem getText_eq_postText_append (v : List Nat) :
    (postText (some v)).1 = 200
      ∧ (getText (some v)).2 = (postText (some v)).2 ++ lit "\x7d" := by
  refine ⟨rfl, ?_⟩
  have e : lit "\"\x7d" = lit "\"" ++ lit "\x7d" := by decide
  simp [getText, postText, requestArg, e, List.append_assoc]

/-- The body of `GET /api/v1/emoji` is the 200 body of `POST /api/v1/emoji` followed by
the closing brace the latter lacks. -/
theorem getEmoji_eq_postEmoji_append (v : List Nat) (net : EmojiNet)
    (h : (postEmoji (some v) net).1 = 200) :
    (getEmoji (some v)).2 = (postEmoji (some v) net).2 ++ lit "\x7d" := by
  have e : lit "\"\x7d" = lit "\"" ++ lit "\x7d" := by decide
  unfold postEmoji at h ⊢
  dsimp only at h ⊢
  split_ifs at h ⊢ with hc
  · simp [getEmoji, requestArg, e, List.append_assoc]
  · simp at h

/-- The 200 body of `POST /api/v1/text` never equals the body of `GET /api/v1/text`, and
it has one opening brace more than the `GET` body has in excess. -/
theorem postText_ne_getText (v : List Nat) :
    (postText (some v)).2 ≠ (getText (some v)).2
      ∧ braceExcess (postText (some v)).2 = braceExcess (getText (some v)).2 + 1 := by
  have h := (getText_eq_postText_append v).2
  constructor
  · intro e
    have hl := congrArg List.length h
    rw [← e] at hl
    simp [lit] at hl
  · rw [h]
    unfold braceExcess
    rw [List.count_append, List.count_append]
    have c1 : List.count 0x7B (lit "\x7d") = 0 := by decide
    have c2 : List.count 0x7D (lit "\x7d") = 1 := by decide
    rw [c1, c2]
    push_cast
    omega

/-- C21 (code defect): the 200 body of `POST /api/v1/text` for the argument "hi" is
`{"text":"hi"` without the closing brace, while `GET /api/v1/text` answers `{"text":"hi"}`;
the 200 body of `POST /api/v1/emoji` for the argument "A" is `{"emoji":"A"` while
`GET /api/v1/emoji` answers `{"emoji":"A"}`.  The `POST` bodies are not brace-balanced and
differ from the `GET` bodies. -/
theorem C21_post_body_lacks_closing_brace :
    postText (some (lit "hi")) = (200, lit "\x7b\"text\":\"hi\"")
      ∧ getText (some (lit "hi")) = (200, lit "\x7b\"text\":\"hi\"\x7d")
      ∧ postText (some (lit "hi")) ≠ getText (some (lit "hi"))
      ∧ braceExcess (postText (some (lit "hi"))).2 = 1
      ∧ braceExcess (getText (some (lit "hi"))).2 = 0
      ∧ postEmoji (some (lit "A")) ⟨true, 200, 4096⟩ = (200, lit "\x7b\"emoji\":\"A\"")
      ∧ getEmoji (some (lit "A")) = (200, lit "\x7b\"emoji\":\"A\"\x7d")
      ∧ postEmoji (some (lit "A")) ⟨true, 200, 4096⟩ ≠ getEmoji (some (lit "A"))
      ∧ braceExcess (postEmoji (some (lit "A")) ⟨true, 200, 4096⟩).2 = 1 := by
  decide

end Panel
